import Mathlib

/-!
GitBook page to Markdown converter: `src/index_md.js`.

A shallow embedding of the pure parts of `index_md.js` and of the control flow of
`extractMarkdownContent`, followed by theorems about them.

Conventions of the embedding.

* A JavaScript string is a `List Char` (`Str`).  The functions modelled here only split and
  compare at ASCII characters, so reading a string as a list of code points rather than of
  UTF-16 code units changes no result; the one place where the unit count is observable,
  `filename.length > 3`, goes through `jsLength`.
* A call that may throw returns `Except _ _`; `try … catch` is a `match` on it.  What is
  thrown is a `Thrown`: an `Error` object, or a value without a `message`, `null` and
  `undefined` among them.
* The browser, the network and the Markdown converter are not modelled: what they returned
  during one call of `extractMarkdownContent` is recorded in a `PageRun`.
* `new RegExp(…, 'g')` and `String.prototype.replace` are modelled for the fragment of the
  pattern language that the patterns of `index_md.js` are written in (`parseRegExp`,
  `scanMatches`, `getSubstitution`, `replaceGlobal`).
-/

namespace GitbookMd

/-- A JavaScript string. -/
abbrev Str := List Char

/-- A JavaScript `Error` object, reduced to its `message`. -/
structure JsError where
  message : Str
deriving DecidableEq, Repr

/-- A thrown value: an `Error` object; some other value that is neither `null` nor
`undefined` and has no `message` property (a thrown string, say); `null`; `undefined`. -/
inductive Thrown where
  | errorObject (e : JsError)
  | primitive
  | null
  | undefined
deriving DecidableEq, Repr

/-- The expression `error.message` inside a template literal, for a caught `error`: the message
of an `Error` object, the text `undefined` for a value without one, and a `TypeError` thrown
by the property access itself when the value is `null` or `undefined`. -/
def Thrown.readMessage : Thrown → Except JsError Str
  | .errorObject e => .ok e.message
  | .primitive => .ok "undefined".toList
  | .null => .error ⟨"Cannot read properties of null (reading 'message')".toList⟩
  | .undefined => .error ⟨"Cannot read properties of undefined (reading 'message')".toList⟩

/-! ## String primitives -/

/-- `str.split(sep)` for a one-character separator: empty pieces are kept, and the empty
string yields one empty piece. -/
def split (sep : Char) : Str → List Str
  | [] => [[]]
  | c :: cs =>
    if c = sep then [] :: split sep cs
    else
      match split sep cs with
      | [] => [[c]]
      | h :: t => (c :: h) :: t

/-- The characters matched by `\s` and removed by `trim`: ECMAScript WhiteSpace and
LineTerminator. -/
def isWhiteSpace (c : Char) : Bool :=
  let n := c.toNat
  (9 ≤ n && n ≤ 13) || n == 32 || n == 160 || n == 5760 || (8192 ≤ n && n ≤ 8202)
    || n == 8232 || n == 8233 || n == 8239 || n == 8287 || n == 12288 || n == 65279

/-- ECMAScript LineTerminator, the characters `.` does not match. -/
def isLineTerminator (c : Char) : Bool :=
  let n := c.toNat
  n == 10 || n == 13 || n == 8232 || n == 8233

/-- `str.trim()`. -/
def trim (s : Str) : Str :=
  ((s.dropWhile isWhiteSpace).reverse.dropWhile isWhiteSpace).reverse

/-- `str.toLowerCase()` on the ASCII letters.  It is applied below to the result of the first
replacement of `sanitizeFolderName` and to an extension taken from a serialised URL path, both
of which are ASCII. -/
def toLowerCase (s : Str) : Str := s.map Char.toLower

/-- `str.length`: the number of UTF-16 code units. -/
def jsLength (s : Str) : Nat :=
  (s.map fun c => if c.toNat < 65536 then 1 else 2).sum

/-- `String(n)` for a non-negative integer. -/
def numberToString (n : Nat) : Str := Nat.toDigits 10 n

/-- The number a string of decimal digits denotes. -/
def decimalValue (s : Str) : Nat := s.foldl (fun a c => 10 * a + (c.toNat - 48)) 0

/-- Every maximal run of characters satisfying `p` becomes one `r`: `str.replace(/P+/g, r)`
for a character class `P`. -/
def replaceRuns (p : Char → Bool) (r : Char) : Str → Str
  | [] => []
  | [c] => if p c then [r] else [c]
  | c :: d :: cs =>
    if p c then
      if p d then replaceRuns p r (d :: cs) else r :: replaceRuns p r (d :: cs)
    else c :: replaceRuns p r (d :: cs)

/-! ## `sanitizeFolderName` (lines 25-32) -/

/-- The characters `/[^a-z0-9\s-]/gi` does not match.  Without the `u` flag the `i` flag never
makes a non-ASCII character equal to an ASCII one, so the class is exactly this. -/
def isFolderChar (c : Char) : Bool :=
  c.isLower || c.isUpper || c.isDigit || isWhiteSpace c || c == '-'

/-- The function `sanitizeFolderName`. -/
def sanitizeFolderName (name : Str) : Str :=
  trim (toLowerCase (replaceRuns (fun c => c == '-') '-'
    (replaceRuns isWhiteSpace '-' (name.filter isFolderChar))))

/-! ## `categorizeUrl` (lines 327-335) -/

/-- The function `categorizeUrl`; the logged message is not modelled. -/
def categorizeUrl (url : Str) : Str :=
  let parts := split '/' url
  if parts.length < 5 then "unknown".toList
  else parts.getD 4 []

/-! ## `new URL(url).pathname` -/

/-- C0 control or space, stripped from both ends of the input by the URL parser. -/
def isC0OrSpace (c : Char) : Bool := c.toNat ≤ 32

/-- ASCII tab or newline, removed from the input by the URL parser. -/
def isTabOrNewline (c : Char) : Bool :=
  let n := c.toNat
  n == 9 || n == 10 || n == 13

/-- The input as the URL parser's state machine sees it. -/
def urlPreprocess (input : Str) : Str :=
  (((input.dropWhile isC0OrSpace).reverse.dropWhile isC0OrSpace).reverse).filter
    fun c => !isTabOrNewline c

/-- The scheme state of the URL parser: the characters after the first one, up to the colon. -/
def schemeRest : Str → Option Str
  | [] => none
  | c :: cs =>
    if c == ':' then some []
    else if c.isAlphanum || c == '+' || c == '-' || c == '.' then
      (schemeRest cs).map fun r => c :: r
    else none

/-- The scheme start state and scheme state of the URL parser: the scheme of the input, or
`none` when the parser falls to its no-scheme state. -/
def schemeOf (s : Str) : Option Str :=
  match s with
  | [] => none
  | c :: cs => if c.isAlpha then (schemeRest cs).map fun r => c :: r else none

/-- `new URL(url).pathname`.  Without a base URL the constructor throws on an input that has no
scheme; on the others the path is whatever the rest of the parser (`pathOf`, not modelled:
authority and host parsing, dot segments, percent-encoding) makes of the input, and `none`
where that part rejects it. -/
def urlPathname (pathOf : Str → Option Str) (url : Str) : Except JsError Str :=
  match schemeOf (urlPreprocess url) with
  | none => .error ⟨"Invalid URL".toList⟩
  | some _ =>
    match pathOf url with
    | none => .error ⟨"Invalid URL".toList⟩
    | some p => .ok p

/-- The path of a URL `scheme://authority/path?query#fragment` whose path needs no
normalisation: the text from the first `/` after the authority up to the first `?` or `#`,
and `/` when there is none.  It stands for the unmodelled part of the URL parser where a
definition is evaluated on such a URL. -/
def plainPathOf (url : Str) : Option Str :=
  match schemeRest url with
  | none => none
  | some scheme =>
    match url.drop (scheme.length + 1) with
    | '/' :: '/' :: rest =>
      let afterAuthority := rest.dropWhile fun c => !(c == '/' || c == '?' || c == '#')
      let p := afterAuthority.takeWhile fun c => !(c == '?' || c == '#')
      some (if p.isEmpty then ['/'] else p)
    | _ => none

/-! ## `path.extname` (POSIX) -/

/-- The loop variables of `path.extname`. -/
structure ExtState where
  startDot : Option Nat := none
  startPart : Nat := 0
  endIdx : Option Nat := none
  matchedSlash : Bool := true
  preDotState : Int := 0
  stopped : Bool := false
deriving DecidableEq, Repr

/-- One iteration of the loop of `path.extname`, at index `i` holding character `c`. -/
def extnameStep (st : ExtState) (ic : Nat × Char) : ExtState :=
  let i := ic.1
  let c := ic.2
  if st.stopped then st
  else if c == '/' then
    if !st.matchedSlash then { st with startPart := i + 1, stopped := true } else st
  else
    let st1 : ExtState :=
      if st.endIdx.isNone then { st with matchedSlash := false, endIdx := some (i + 1) } else st
    if c == '.' then
      if st1.startDot.isNone then { st1 with startDot := some i }
      else if st1.preDotState != 1 then { st1 with preDotState := 1 } else st1
    else if st1.startDot.isSome then { st1 with preDotState := -1 }
    else st1

/-- `path.extname(p)`: the loop runs from the last index down to 0. -/
def extname (p : Str) : Str :=
  let st := (p.enum.reverse).foldl extnameStep {}
  match st.startDot, st.endIdx with
  | some startDot, some e =>
    if st.preDotState == 0 ||
        (st.preDotState == 1 && startDot == e - 1 && startDot == st.startPart + 1) then []
    else (p.drop startDot).take (e - startDot)
  | _, _ => []

/-! ## `getImageExtension` (lines 89-102) and the local file name -/

/-- The extensions `getImageExtension` lets through. -/
def extensionWhitelist : List Str :=
  [".jpg".toList, ".jpeg".toList, ".png".toList, ".gif".toList, ".svg".toList, ".webp".toList]

/-- The function `getImageExtension`. -/
def getImageExtension (pathOf : Str → Option Str) (url : Str) : Except JsError Str :=
  match urlPathname pathOf url with
  | .error e => .error e
  | .ok pathname =>
    let filename := (split '/' pathname).getLastD []
    let extension := toLowerCase ((split '?' (extname filename)).headD [])
    .ok (if !extension.isEmpty && extensionWhitelist.contains extension then extension
         else ".png".toList)

/-- The template literal of line 232: `image_${pageCounter}_${i+1}${extension}`. -/
def imageFileName (pageCounter i : Nat) (extension : Str) : Str :=
  "image_".toList ++ numberToString pageCounter ++ "_".toList ++ numberToString (i + 1)
    ++ extension

/-! ## The image candidates and the download loop (lines 193-246) -/

/-- One entry of `imageMap`: the four fields read from the DOM, and the two the download loop
adds. -/
structure Image where
  originalSrc : Str
  dataSrc : Str
  srcset : Str
  alt : Str
  localPath : Option Str := none
  baseUrl : Option Str := none
deriving DecidableEq, Repr

/-- How one call of `downloadImage` went: the stream was written; the request was rejected
(network error, status outside 2xx); or the write stream emitted `error`. -/
inductive DownloadOutcome where
  | finished
  | requestFailed (e : Thrown)
  | writeFailed (e : Thrown)
deriving DecidableEq, Repr

/-- The function `downloadImage` (lines 105-125).  A rejected request is caught inside it and
the function returns `null`; an error of the write stream rejects the returned promise. -/
def downloadImage (o : DownloadOutcome) : Except Thrown (Option Unit) :=
  match o with
  | .finished => .ok (some ())
  | .requestFailed _ => .ok none
  | .writeFailed e => .error e

/-- Lines 217-227: the URL the loop will download. -/
def chooseImageUrl (image : Image) : Str :=
  let imageUrl := image.originalSrc
  if imageUrl.isEmpty && !image.dataSrc.isEmpty then image.dataSrc
  else if imageUrl.isEmpty && !image.srcset.isEmpty then
    let srcsetParts := split ',' image.srcset
    if srcsetParts.length > 0 then (split ' ' (trim (srcsetParts.headD []))).headD []
    else imageUrl
  else imageUrl

/-- The URL choice as the specification words it: the resolved `src` when it is not empty,
otherwise `data-src` when it is not empty, otherwise the first comma-separated entry of
`srcset` cut at its first whitespace character. -/
def claimedImageUrl (image : Image) : Str :=
  if !image.originalSrc.isEmpty then image.originalSrc
  else if !image.dataSrc.isEmpty then image.dataSrc
  else ((split ',' image.srcset).headD []).takeWhile fun c => !isWhiteSpace c

/-- A download that was started: the URL and the file name under `images/`. -/
abbrev Attempt := Str × Str

/-- The body of the loop of lines 214-246 for the image at index `i`: the image as the loop
leaves it, and the downloads it started.  A throw of `getImageExtension` is not caught here,
and the `catch` of lines 242-244 reads `err.message`, which throws in turn when what the
download rejected with is `null` or `undefined`. -/
def processImage (pathOf : Str → Option Str) (outcome : DownloadOutcome) (pageCounter i : Nat)
    (image : Image) : Except JsError (Image × List Attempt) :=
  let imageUrl := chooseImageUrl image
  if !imageUrl.isEmpty then
    match getImageExtension pathOf imageUrl with
    | .error e => .error e
    | .ok extension =>
      let fileName := imageFileName pageCounter i extension
      match downloadImage outcome with
      | .ok _ =>
        .ok ({ image with
                localPath := some ("./images/".toList ++ fileName)
                baseUrl := some ((split '?' imageUrl).headD []) },
             [(imageUrl, fileName)])
      | .error err =>
        match err.readMessage with
        | .error typeError => .error typeError
        | .ok _ => .ok (image, [(imageUrl, fileName)])
  else .ok (image, [])

/-- The loop of lines 214-246, from index `i` on; `download k` is the outcome of the download
of the image at index `k`. -/
def processImages (pathOf : Str → Option Str) (download : Nat → DownloadOutcome)
    (pageCounter : Nat) : Nat → List Image → Except JsError (List Image × List Attempt)
  | _, [] => .ok ([], [])
  | i, image :: rest =>
    match processImage pathOf (download i) pageCounter i image with
    | .error e => .error e
    | .ok (image', started) =>
      match processImages pathOf download pageCounter (i + 1) rest with
      | .error e => .error e
      | .ok (rest', started') => .ok (image' :: rest', started ++ started')

/-! ## Regular expressions: the pattern language of lines 281-306 -/

/-- A pattern that matches one character. -/
inductive Atom where
  | chr (c : Char)
  | dot
  | cls (negated : Bool) (members : List Char)
deriving DecidableEq, Repr

/-- A term of a pattern: an atom, an atom under `*` (greedy) or `*?` (lazy), or the opening or
closing parenthesis of capture group `i`. -/
inductive Node where
  | atom (a : Atom)
  | star (a : Atom) (greedy : Bool)
  | groupOpen (i : Nat)
  | groupClose (i : Nat)
deriving DecidableEq, Repr

/-- A compiled pattern: its terms and the number of its capture groups. -/
structure RegExp where
  nodes : List Node
  nGroups : Nat
deriving DecidableEq, Repr

/-- Where the pattern reader is: between terms, after a backslash, after `[`, or inside a
character class. -/
inductive Mode where
  | normal
  | escaped
  | classStart
  | classBody (negated : Bool) (members : List Char)
deriving DecidableEq, Repr

/-- The state of the pattern reader; `out` holds the terms read so far, last first. -/
structure PState where
  mode : Mode := .normal
  out : List Node := []
  groups : Nat := 0
  openGroups : List Nat := []
deriving DecidableEq, Repr

/-- SyntaxCharacter of the pattern grammar. -/
def isSyntaxChar (c : Char) : Bool :=
  c == '^' || c == '$' || c == '\\' || c == '.' || c == '*' || c == '+' || c == '?'
    || c == '(' || c == ')' || c == '[' || c == ']' || c == '\x7b' || c == '\x7d' || c == '|'

/-- The pattern reader on one character.  `none` is a pattern that `new RegExp` rejects, or one
outside the fragment read here (alternation, anchors, `+`, `?`, braces, class ranges and
escapes, quantified groups); the patterns of lines 281-306 are inside it. -/
def pstep (st : PState) (c : Char) : Option PState :=
  match st.mode with
  | .escaped =>
    if isSyntaxChar c || c == '/' then
      some { st with mode := .normal, out := .atom (.chr c) :: st.out }
    else none
  | .classStart =>
    if c == '^' then some { st with mode := .classBody true [] }
    else if c == ']' then some { st with mode := .normal, out := .atom (.cls false []) :: st.out }
    else if c == '\\' || c == '-' then none
    else some { st with mode := .classBody false [c] }
  | .classBody negated members =>
    if c == ']' then
      some { st with mode := .normal, out := .atom (.cls negated members.reverse) :: st.out }
    else if c == '\\' || c == '-' then none
    else some { st with mode := .classBody negated (c :: members) }
  | .normal =>
    if c == '\\' then some { st with mode := .escaped }
    else if c == '[' then some { st with mode := .classStart }
    else if c == '(' then
      some { st with
              out := .groupOpen (st.groups + 1) :: st.out
              groups := st.groups + 1
              openGroups := (st.groups + 1) :: st.openGroups }
    else if c == ')' then
      match st.openGroups with
      | [] => none
      | g :: gs => some { st with out := .groupClose g :: st.out, openGroups := gs }
    else if c == '*' then
      match st.out with
      | .atom a :: out => some { st with out := .star a true :: out }
      | _ => none
    else if c == '?' then
      match st.out with
      | .star a true :: out => some { st with out := .star a false :: out }
      | _ => none
    else if c == '.' then some { st with out := .atom .dot :: st.out }
    else if isSyntaxChar c then none
    else some { st with out := .atom (.chr c) :: st.out }

/-- The pattern reader on a string. -/
def preadFrom : PState → Str → Option PState
  | st, [] => some st
  | st, c :: cs =>
    match pstep st c with
    | none => none
    | some st' => preadFrom st' cs

/-- `new RegExp(pattern, 'g')`; `none` when the constructor throws. -/
def parseRegExp (pattern : Str) : Option RegExp :=
  match preadFrom {} pattern with
  | none => none
  | some st =>
    if st.mode == .normal && st.openGroups.isEmpty then some ⟨st.out.reverse, st.groups⟩
    else none

/-- Whether an atom matches a character. -/
def Atom.test : Atom → Char → Bool
  | .chr c, d => c == d
  | .dot, d => !isLineTerminator d
  | .cls negated members, d => if negated then !members.contains d else members.contains d

/-- The state of one match attempt: the number of characters consumed since its start, the
groups opened so far with the offset they opened at, and the groups closed so far with their
two offsets. -/
structure MatchState where
  pos : Nat := 0
  opened : List (Nat × Nat) := []
  closed : List (Nat × Nat × Nat) := []
deriving DecidableEq, Repr

/-- The state after one more character. -/
def MatchState.advance (st : MatchState) : MatchState := { st with pos := st.pos + 1 }

/-- The lazy star `a*?` followed by the continuation `k`: the continuation is tried first, and
one more character is taken only when it fails. -/
def starLazy (a : Atom) (k : MatchState → Str → Option MatchState) :
    MatchState → Str → Option MatchState
  | st, [] => k st []
  | st, c :: cs =>
    match k st (c :: cs) with
    | some r => some r
    | none => if a.test c then starLazy a k st.advance cs else none

/-- The greedy star `a*` followed by the continuation `k`: one more character is taken first,
and the continuation is tried here only when that fails. -/
def starGreedy (a : Atom) (k : MatchState → Str → Option MatchState) :
    MatchState → Str → Option MatchState
  | st, [] => k st []
  | st, c :: cs =>
    if a.test c then
      match starGreedy a k st.advance cs with
      | some r => some r
      | none => k st (c :: cs)
    else k st (c :: cs)

/-- The backtracking matcher: the terms are matched in order at the front of the input. -/
def matchNodes : List Node → MatchState → Str → Option MatchState
  | [], st, _ => some st
  | .atom a :: ns, st, s =>
    match s with
    | [] => none
    | c :: cs => if a.test c then matchNodes ns st.advance cs else none
  | .star a greedy :: ns, st, s =>
    if greedy then starGreedy a (matchNodes ns) st s else starLazy a (matchNodes ns) st s
  | .groupOpen i :: ns, st, s => matchNodes ns { st with opened := (i, st.pos) :: st.opened } s
  | .groupClose i :: ns, st, s =>
    matchNodes ns
      { st with closed := (i, ((st.opened.lookup i).getD 0), st.pos) :: st.closed } s

/-- One result of `RegExp.prototype.exec`: where the match starts, the matched text and the
captures (`none` for a group that took no part). -/
structure MatchResult where
  index : Nat
  matched : Str
  captures : List (Option Str)
deriving DecidableEq, Repr

/-- The match of the pattern at the front of `s`, if there is one, as a result at `index`. -/
def matchAt (re : RegExp) (index : Nat) (s : Str) : Option MatchResult :=
  match matchNodes re.nodes {} s with
  | none => none
  | some st =>
    some
      { index := index
        matched := s.take st.pos
        captures := (List.range re.nGroups).map fun g =>
          (st.closed.lookup (g + 1)).map fun se => (s.drop se.1).take (se.2 - se.1) }

/-- The results `replace` collects for a global pattern: `exec` is called until it fails, each
call looks for the leftmost match at or after `lastIndex`, and `lastIndex` moves to the end of
the match, or one further after an empty match.  `s` is the input from `index` on and `skip`
the number of characters still inside the previous match. -/
def scanMatches (re : RegExp) : Str → Nat → Nat → List MatchResult
  | [], index, skip =>
    if skip = 0 then (matchAt re index []).toList else []
  | c :: cs, index, 0 =>
    match matchAt re index (c :: cs) with
    | some m => m :: scanMatches re cs (index + 1) (m.matched.length - 1)
    | none => scanMatches re cs (index + 1) 0
  | _ :: cs, index, skip + 1 => scanMatches re cs (index + 1) skip

/-- The value of a decimal digit. -/
def digitValue (c : Char) : Nat := c.toNat - 48

/-- The capture `$index` stands for: the empty string for a group that took no part. -/
def captureText (captures : List (Option Str)) (index : Nat) : Str :=
  ((captures.getD (index - 1) none).getD [])

/-- GetSubstitution at a `$`: `tl` is the template after the `$`; the result is the text the
reference stands for and the number of characters of `tl` it takes up.  There are no named
groups, so `$<` is literal. -/
def expandRef (matched str : Str) (position : Nat) (captures : List (Option Str)) (tl : Str) :
    Str × Nat :=
  match tl with
  | [] => (['$'], 0)
  | d1 :: rest =>
    if d1 == '$' then (['$'], 1)
    else if d1 == Char.ofNat 96 then (str.take position, 1)
    else if d1 == '&' then (matched, 1)
    else if d1 == Char.ofNat 39 then (str.drop (position + matched.length), 1)
    else if d1.isDigit then
      let one : Str × Nat :=
        if 1 ≤ digitValue d1 && digitValue d1 ≤ captures.length then
          (captureText captures (digitValue d1), 1)
        else (['$', d1], 1)
      match rest with
      | [] => one
      | d2 :: _ =>
        if d2.isDigit then
          let index := 10 * digitValue d1 + digitValue d2
          if index > captures.length then one
          else if 1 ≤ index then (captureText captures index, 2)
          else (['$', d1, d2], 2)
        else one
    else (['$'], 0)

/-- GetSubstitution: the replacement template with its `$` references expanded; `skip` is the
number of template characters already taken up by the last reference. -/
def getSubstitution (matched str : Str) (position : Nat) (captures : List (Option Str)) :
    Nat → Str → Str
  | _, [] => []
  | skip + 1, _ :: cs => getSubstitution matched str position captures skip cs
  | 0, c :: cs =>
    if c == '$' then
      (expandRef matched str position captures cs).1 ++
        getSubstitution matched str position captures
          (expandRef matched str position captures cs).2 cs
    else c :: getSubstitution matched str position captures 0 cs

/-- The string `replace` builds from the collected results: the text between the matches, and
for each match the expanded template. -/
def buildResult (str template : Str) : List MatchResult → Nat → Str
  | [], nextSourcePosition => str.drop nextSourcePosition
  | m :: ms, nextSourcePosition =>
    if nextSourcePosition ≤ m.index then
      (str.drop nextSourcePosition).take (m.index - nextSourcePosition)
        ++ getSubstitution m.matched str m.index m.captures 0 template
        ++ buildResult str template ms (m.index + m.matched.length)
    else buildResult str template ms nextSourcePosition

/-- `str.replace(re, template)` for a global pattern and a string template. -/
def replaceGlobal (re : RegExp) (str template : Str) : Str :=
  buildResult str template (scanMatches re str 0 0) 0

/-! ## The rewriting of image references (lines 274-314) -/

/-- The characters of the class `/[.*+?^${}()|[\]\\]/`. -/
def isEscaped (c : Char) : Bool :=
  c == '.' || c == '*' || c == '+' || c == '?' || c == '^' || c == '$' || c == '\x7b'
    || c == '\x7d' || c == '(' || c == ')' || c == '|' || c == '[' || c == ']' || c == '\\'

/-- `s.replace(/[.*+?^${}()|[\]\\]/g, '\\$&')`: a backslash goes before every character of the
class. -/
def escapeRegExp (s : Str) : Str :=
  s.flatMap fun c => if isEscaped c then ['\\', c] else [c]

/-- The pattern of pass 1, as the template literal of line 282 builds it. -/
def pattern1 (originalSrc : Str) : Str :=
  "!\\[(.*?)\\]\\(".toList ++ escapeRegExp originalSrc ++ "\\)".toList

/-- The pattern of passes 2 and 3 (lines 289 and 296). -/
def pattern2 (url : Str) : Str :=
  "!\\[(.*?)\\]\\(".toList ++ escapeRegExp url ++ "[^)]*\\)".toList

/-- The pattern of pass 4 (line 305). -/
def pattern4 (filename : Str) : Str :=
  "!\\[(.*?)\\]\\([^)]*".toList ++ escapeRegExp filename ++ "[^)]*\\)".toList

/-- The terms of a pattern that matches the string `s` character by character. -/
def literalNodes (s : Str) : List Node := s.map fun c => .atom (.chr c)

/-- The terms `!\[(.*?)\]\(` that open the four patterns. -/
def referenceHead : List Node :=
  [.atom (.chr '!'), .atom (.chr '['), .groupOpen 1, .star .dot false, .groupClose 1,
    .atom (.chr ']'), .atom (.chr '(')]

/-- The replacement template of all four passes: the template literal of line 283. -/
def replacementFor (alt localPath : Str) : Str :=
  "![".toList ++ alt ++ "](".toList ++ localPath ++ ")".toList

/-- Truthiness of an optional string field: present and not empty. -/
def truthy (o : Option Str) : Bool :=
  match o with
  | none => false
  | some s => !s.isEmpty

/-- The last `/`-piece of the base URL, when pass 4 uses it (lines 302-303). -/
def pass4Filename (image : Image) : Option Str :=
  if truthy image.baseUrl then
    let filename := (split '/' (image.baseUrl.getD [])).getLastD []
    if !filename.isEmpty && jsLength filename > 3 then some filename else none
  else none

/-- The pattern sources the loop builds for one image, in the order of the passes. -/
def patternsOf (image : Image) : List Str :=
  (if !image.originalSrc.isEmpty then [pattern1 image.originalSrc] else [])
    ++ (if truthy image.baseUrl then [pattern2 (image.baseUrl.getD [])] else [])
    ++ (if !image.dataSrc.isEmpty then [pattern2 image.dataSrc] else [])
    ++ (match pass4Filename image with
        | some filename => [pattern4 filename]
        | none => [])

/-- The statements of the `try` block one after the other: a pattern the constructor rejects
throws, which ends the block with the Markdown as the passes before it left it. -/
def runPasses (template : Str) : List Str → Str → Str
  | [], markdown => markdown
  | pattern :: rest, markdown =>
    match parseRegExp pattern with
    | none => markdown
    | some re => runPasses template rest (replaceGlobal re markdown template)

/-- The body of the loop of lines 274-314 for one image. -/
def rewriteImage (image : Image) (markdown : Str) : Str :=
  if truthy image.localPath then
    runPasses (replacementFor image.alt (image.localPath.getD [])) (patternsOf image) markdown
  else markdown

/-- The loop of lines 274-314. -/
def rewriteImages (imageMap : List Image) (markdown : Str) : Str :=
  imageMap.foldl (fun md image => rewriteImage image md) markdown

/-! ## `extractMarkdownContent` (lines 128-324) -/

/-- What the collaborators of `extractMarkdownContent` did during one call, in the order of the
calls: `page.setViewport`, `page.goto`, the creation of the `images` directory, the four
`page.evaluate` calls (hiding the chrome, the title, the images, the content), the downloads
and `turndown`.  Each call either returned or threw, and nothing is assumed of what it
threw. -/
structure PageRun where
  setViewport : Except Thrown Unit
  goto : Except Thrown Unit
  ensureImagesDir : Except Thrown Unit
  hideChrome : Except Thrown Unit
  pageTitle : Except Thrown Str
  imageMap : Except Thrown (List Image)
  download : Nat → DownloadOutcome
  contentHTML : Except Thrown Str
  turndown : Str → Except Thrown Str

/-- The `try` block of `extractMarkdownContent` (lines 130-319): the value returned, or the
value thrown by the first statement that throws. -/
def extractTry (pathOf : Str → Option Str) (run : PageRun) (pageCounter : Nat) :
    Except Thrown Str :=
  match run.setViewport with
  | .error t => .error t
  | .ok _ =>
  match run.goto with
  | .error t => .error t
  | .ok _ =>
  match run.ensureImagesDir with
  | .error t => .error t
  | .ok _ =>
  match run.hideChrome with
  | .error t => .error t
  | .ok _ =>
  match run.pageTitle with
  | .error t => .error t
  | .ok pageTitle =>
  match run.imageMap with
  | .error t => .error t
  | .ok imageMap =>
  match processImages pathOf run.download pageCounter 0 imageMap with
  | .error e => .error (.errorObject e)
  | .ok processed =>
  match run.contentHTML with
  | .error t => .error t
  | .ok contentHTML =>
  match run.turndown contentHTML with
  | .error t => .error t
  | .ok markdown =>
    .ok ("# ".toList ++ pageTitle ++ "\n\n".toList ++ rewriteImages processed.1 markdown)

/-- The function `extractMarkdownContent`: the `try` block and its `catch` (lines 320-323).
The `catch` builds the placeholder document from `url` and `error.message`; when reading
`error.message` throws, that `TypeError` leaves the function. -/
def extractMarkdownContent (pathOf : Str → Option Str) (run : PageRun) (url : Str)
    (pageCounter : Nat) : Except JsError Str :=
  match extractTry pathOf run pageCounter with
  | .ok fullMarkdown => .ok fullMarkdown
  | .error error =>
    match error.readMessage with
    | .error typeError => .error typeError
    | .ok message =>
      .ok ("# Error Extracting Content\n\nFailed to extract content from ".toList ++ url
            ++ ". Error: ".toList ++ message)

/-- What the `catch` of `extractMarkdownContent` makes of the thrown value `t` for the page
`url`, written out: the placeholder document with the message of an `Error` object, or with
the text `undefined` for a value without a message; and for `null` and `undefined` the
`TypeError` of the property access, which the function lets through. -/
def CatchOutcome (url : Str) (t : Thrown) (r : Except JsError Str) : Prop :=
  match t with
  | .errorObject e =>
    r = .ok ("# ".toList ++ "Error Extracting Content".toList ++ "\n\n".toList
          ++ ("Failed to extract content from ".toList ++ url ++ ". Error: ".toList
              ++ e.message))
  | .primitive =>
    r = .ok ("# ".toList ++ "Error Extracting Content".toList ++ "\n\n".toList
          ++ ("Failed to extract content from ".toList ++ url ++ ". Error: ".toList
              ++ "undefined".toList))
  | .null => r = .error ⟨"Cannot read properties of null (reading 'message')".toList⟩
  | .undefined =>
    r = .error ⟨"Cannot read properties of undefined (reading 'message')".toList⟩

/-! ## Concrete pages -/

/-- A page with one image, `<img src="https://cdn.example.com/a/img.png" alt="diagram">`, as
the DOM and the converter report it; `outcome` is how the download of the image went. -/
def onePictureRun (outcome : DownloadOutcome) : PageRun where
  setViewport := .ok ()
  goto := .ok ()
  ensureImagesDir := .ok ()
  hideChrome := .ok ()
  pageTitle := .ok "Guide".toList
  imageMap := .ok
    [{ originalSrc := "https://cdn.example.com/a/img.png".toList, dataSrc := [], srcset := [],
       alt := "diagram".toList }]
  download := fun _ => outcome
  contentHTML := .ok "<p><img src=\"https://cdn.example.com/a/img.png\" alt=\"diagram\"></p>".toList
  turndown := fun _ => .ok "![diagram](https://cdn.example.com/a/img.png)".toList

/-- The page of `onePictureRun` when `page.goto` rejects with `null`. -/
def nullRejectionRun : PageRun :=
  { onePictureRun .finished with goto := .error .null }

/-- An image with resolved `src` equal to `src` and alternative text `alt`, as the loop leaves
it after a download that set `localPath`: the first image of page 1, with extension `.png`. -/
def downloadedPicture (src alt : Str) : Image :=
  { originalSrc := src, dataSrc := [], srcset := [], alt := alt,
    localPath := some "./images/image_1_1.png".toList,
    baseUrl := some ((split '?' src).headD []) }

/-- The first two images of page 1, `https://h/2.png` and `https://h/b.png`, as the loop leaves
them after their downloads. -/
def twoPictures : List Image :=
  [{ originalSrc := "https://h/2.png".toList, dataSrc := [], srcset := [],
     alt := "one".toList, localPath := some "./images/image_1_1.png".toList,
     baseUrl := some "https://h/2.png".toList },
   { originalSrc := "https://h/b.png".toList, dataSrc := [], srcset := [],
     alt := "two".toList, localPath := some "./images/image_1_2.png".toList,
     baseUrl := some "https://h/b.png".toList }]

/-- An image without `src` and `data-src` whose `srcset` separates URL and descriptor by a
tab. -/
def tabSrcsetImage : Image :=
  { originalSrc := [], dataSrc := [],
    srcset := "https://h/a.jpg\t2x, https://h/b.jpg 3x".toList, alt := "photo".toList }

/-- An image without `src`, `data-src` and `srcset`. -/
def bareImage : Image :=
  { originalSrc := [], dataSrc := [], srcset := [], alt := "logo".toList }

/-! # Theorems -/

/-! ## `split` -/

theorem split_ne_nil (sep : Char) (s : Str) : split sep s ≠ [] := by
  induction s with
  | nil => simp [split]
  | cons c cs ih =>
    unfold split
    split_ifs
    · simp
    · cases h : split sep cs with
      | nil => exact absurd h ih
      | cons a t => simp

theorem split_of_not_mem (sep : Char) (a : Str) (h : sep ∉ a) : split sep a = [a] := by
  induction a with
  | nil => rfl
  | cons c cs ih =>
    have hc : c ≠ sep := fun e => h (by simp [e])
    have hcs : sep ∉ cs := fun e => h (by simp [e])
    simp [split, hc, ih hcs]

theorem split_append_sep (sep : Char) (a b : Str) (h : sep ∉ a) :
    split sep (a ++ sep :: b) = a :: split sep b := by
  induction a with
  | nil => simp [split]
  | cons c cs ih =>
    have hc : c ≠ sep := fun e => h (by simp [e])
    have hcs : sep ∉ cs := fun e => h (by simp [e])
    simp [split, hc, ih hcs]

theorem length_split (sep : Char) (s : Str) : (split sep s).length = s.count sep + 1 := by
  induction s with
  | nil => rfl
  | cons c cs ih =>
    by_cases hc : c = sep
    · subst hc
      simp [split, ih]
    · have hne : split c cs ≠ [] := split_ne_nil c cs
      cases h : split sep cs with
      | nil => exact absurd h (split_ne_nil sep cs)
      | cons a t =>
        rw [h] at ih
        simp [split, hc, h, List.count_cons]
        simp at ih
        omega

theorem head_split (sep : Char) (s : Str) :
    (split sep s).headD [] = s.takeWhile fun c => c != sep := by
  induction s with
  | nil => rfl
  | cons c cs ih =>
    by_cases hc : c = sep
    · subst hc
      simp [split, List.takeWhile]
    · cases h : split sep cs with
      | nil => exact absurd h (split_ne_nil sep cs)
      | cons a t =>
        rw [h] at ih
        simp at ih
        have hb : (c != sep) = true := by simp [hc]
        simp [split, hc, h, List.takeWhile_cons, hb, ih]

/-! ## `categorizeUrl` -/

/-- C9, as the claim has it, fails: the URL `https://host/a/b/c`, whose path has three
segments, is given the category `b`, not `unknown`. -/
theorem categorizeUrl_three_path_segments :
    categorizeUrl "https://host/a/b/c".toList = "b".toList ∧
      categorizeUrl "https://host/a/b/c".toList ≠ "unknown".toList := by
  decide

/-- C9, amended: `categorizeUrl` cuts the whole URL string, scheme and host included, at every
`/`.  A string with fewer than four `/` has fewer than five pieces and gets `unknown`; a
string `a0/a1/a2/a3/a4` or `a0/a1/a2/a3/a4/…` gets its fifth piece `a4`, which for
`https://host/p1/p2/…` is the second path segment `p2`. -/
theorem categorizeUrl_fifth_piece (url : Str) :
    (url.count '/' < 4 → categorizeUrl url = "unknown".toList) ∧
    (∀ a0 a1 a2 a3 a4 rest : Str, '/' ∉ a0 → '/' ∉ a1 → '/' ∉ a2 → '/' ∉ a3 → '/' ∉ a4 →
      (url = a0 ++ '/' :: (a1 ++ '/' :: (a2 ++ '/' :: (a3 ++ '/' :: a4))) ∨
        url = a0 ++ '/' :: (a1 ++ '/' :: (a2 ++ '/' :: (a3 ++ '/' :: (a4 ++ '/' :: rest))))) →
      categorizeUrl url = a4) := by
  constructor
  · intro h
    have hl := length_split '/' url
    simp only [categorizeUrl]
    rw [if_pos (by omega)]
  · intro a0 a1 a2 a3 a4 rest h0 h1 h2 h3 h4 hurl
    rcases hurl with rfl | rfl
    · simp [categorizeUrl, split_append_sep, split_of_not_mem, h0, h1, h2, h3, h4]
    · simp [categorizeUrl, split_append_sep, h0, h1, h2, h3, h4]

/-- The amended C9 at `https://docs.site/main/settings/page` and at `https://host/a`. -/
theorem categorizeUrl_fifth_piece_witness :
    categorizeUrl "https://docs.site/main/settings/page".toList = "settings".toList ∧
      categorizeUrl "https://host/a".toList = "unknown".toList :=
  ⟨(categorizeUrl_fifth_piece "https://docs.site/main/settings/page".toList).2
      "https:".toList [] "docs.site".toList "main".toList "settings".toList "page".toList
      (by decide) (by decide) (by decide) (by decide) (by decide) (Or.inr (by decide)),
    (categorizeUrl_fifth_piece "https://host/a".toList).1 (by decide)⟩

/-! ## `sanitizeFolderName` -/

theorem replaceRuns_cons_of_not (p : Char → Bool) (r d : Char) (cs : Str) (h : p d = false) :
    replaceRuns p r (d :: cs) = d :: replaceRuns p r cs := by
  cases cs with
  | nil => simp [replaceRuns, h]
  | cons e es => simp [replaceRuns, h]

theorem mem_replaceRuns (p : Char → Bool) (r : Char) (l : Str) :
    ∀ c ∈ replaceRuns p r l, c = r ∨ (c ∈ l ∧ p c = false) := by
  induction l with
  | nil => simp [replaceRuns]
  | cons a t ih =>
    intro c hc
    cases t with
    | nil =>
      by_cases ha : p a = true
      · simp [replaceRuns, ha] at hc
        exact Or.inl hc
      · simp [replaceRuns, ha] at hc
        subst hc
        exact Or.inr ⟨by simp, by simpa using ha⟩
    | cons d cs =>
      by_cases ha : p a = true
      · by_cases hd : p d = true
        · simp only [replaceRuns, ha, hd, if_true] at hc
          rcases ih c hc with h | h
          · exact Or.inl h
          · exact Or.inr ⟨List.mem_cons_of_mem _ h.1, h.2⟩
        · simp only [replaceRuns, ha, hd, if_true] at hc
          rcases List.mem_cons.1 hc with h | h
          · exact Or.inl h
          · rcases ih c h with h | h
            · exact Or.inl h
            · exact Or.inr ⟨List.mem_cons_of_mem _ h.1, h.2⟩
      · simp only [replaceRuns, ha] at hc
        rcases List.mem_cons.1 hc with h | h
        · subst h
          exact Or.inr ⟨by simp, by simpa using ha⟩
        · rcases ih c h with h | h
          · exact Or.inl h
          · exact Or.inr ⟨List.mem_cons_of_mem _ h.1, h.2⟩

theorem replaceRuns_eq_self (p : Char → Bool) (r : Char) (l : Str)
    (h : ∀ c ∈ l, p c = false) : replaceRuns p r l = l := by
  induction l with
  | nil => rfl
  | cons a t ih =>
    rw [replaceRuns_cons_of_not p r a t (h a (by simp)), ih fun c hc => h c (by simp [hc])]

theorem chain_replaceRuns_hyphen (l : Str) :
    List.Chain' (fun a b : Char => ¬ (a = '-' ∧ b = '-'))
      (replaceRuns (fun c => c == '-') '-' l) := by
  induction l with
  | nil => simp [replaceRuns]
  | cons a t ih =>
    cases t with
    | nil =>
      by_cases ha : a = '-' <;> simp [replaceRuns, ha]
    | cons d cs =>
      by_cases ha : a = '-'
      · by_cases hd : d = '-'
        · simpa [replaceRuns, ha, hd] using ih
        · have hd' : (fun c : Char => c == '-') d = false := by simpa using hd
          have e := replaceRuns_cons_of_not (fun c => c == '-') '-' d cs hd'
          simp only [replaceRuns, ha, hd, beq_self_eq_true, if_true]
          have hf : (d == '-') = false := by simpa using hd
          simp only [hf]
          rw [e] at ih ⊢
          exact List.Chain'.cons (by simp [hd]) ih
      · have hf : (a == '-') = false := by simpa using ha
        simp only [replaceRuns, hf]
        refine List.Chain'.cons' ih ?_
        intro y _
        simp [ha]

theorem replaceRuns_hyphen_eq_self (l : Str)
    (h : List.Chain' (fun a b : Char => ¬ (a = '-' ∧ b = '-')) l) :
    replaceRuns (fun c => c == '-') '-' l = l := by
  induction l with
  | nil => rfl
  | cons a t ih =>
    cases t with
    | nil => by_cases ha : a = '-' <;> simp [replaceRuns, ha]
    | cons d cs =>
      have ht := ih (List.Chain'.tail h)
      have hr := List.Chain'.rel_head h
      by_cases ha : a = '-'
      · have hd : d ≠ '-' := fun e => hr ⟨ha, e⟩
        have hf : (d == '-') = false := by simpa using hd
        simp only [replaceRuns, ha, hf, beq_self_eq_true, if_true]
        rw [ht]
        simp
      · have hf : (a == '-') = false := by simpa using ha
        simp only [replaceRuns, hf]
        rw [ht]
        simp

theorem dropWhile_eq_self_of_all_false (p : Char → Bool) (l : Str)
    (h : ∀ c ∈ l, p c = false) : l.dropWhile p = l := by
  cases l with
  | nil => rfl
  | cons a t => simp [List.dropWhile, h a (by simp)]

theorem trim_eq_self (l : Str) (h : ∀ c ∈ l, isWhiteSpace c = false) : trim l = l := by
  unfold trim
  rw [dropWhile_eq_self_of_all_false _ l h,
    dropWhile_eq_self_of_all_false _ l.reverse (fun c hc => h c (List.mem_reverse.1 hc))]
  simp

theorem char_eq_ofNat_toNat (c : Char) : c = Char.ofNat c.toNat := by
  simp [Char.ofNat_toNat]

theorem toLower_of_isUpper (c : Char) (h : c.isUpper = true) :
    c.toLower.isLower = true ∧ c.toLower ≠ '-' := by
  have h1 : 65 ≤ c.toNat ∧ c.toNat ≤ 90 := by
    simp [Char.isUpper] at h
    simp [Char.toNat]
    exact ⟨h.1, h.2⟩
  have e := char_eq_ofNat_toNat c
  obtain ⟨lo, hi⟩ := h1
  generalize c.toNat = n at e lo hi
  subst e
  interval_cases n <;> decide

theorem toLower_of_not_isUpper (c : Char) (h : c.isUpper = false) : c.toLower = c := by
  have h' : ¬ (c.toNat ≥ 65 ∧ c.toNat ≤ 90) := by
    intro hh
    have h1 : c.isUpper = true := by
      simp [Char.isUpper]
      simp [Char.toNat] at hh
      exact ⟨hh.1, hh.2⟩
    rw [h] at h1
    exact absurd h1 (by simp)
  simp only [Char.toLower]
  rw [if_neg h']

theorem lowerClass_facts (c : Char) (h : c.isLower = true ∨ c.isDigit = true ∨ c = '-') :
    isWhiteSpace c = false ∧ isFolderChar c = true ∧ c.isUpper = false := by
  rcases h with h | h | h
  · have hb : 97 ≤ c.toNat ∧ c.toNat ≤ 122 := by
      simp [Char.isLower] at h
      simp [Char.toNat]
      exact ⟨h.1, h.2⟩
    refine ⟨?_, by simp [isFolderChar, h], ?_⟩
    · simp [isWhiteSpace]
      omega
    · have e := char_eq_ofNat_toNat c
      obtain ⟨lo, hi⟩ := hb
      generalize c.toNat = n at e lo hi
      subst e
      interval_cases n <;> decide
  · have hb : 48 ≤ c.toNat ∧ c.toNat ≤ 57 := by
      simp [Char.isDigit] at h
      simp [Char.toNat]
      exact ⟨h.1, h.2⟩
    refine ⟨?_, by simp [isFolderChar, h], ?_⟩
    · simp [isWhiteSpace]
      omega
    · have e := char_eq_ofNat_toNat c
      obtain ⟨lo, hi⟩ := hb
      generalize c.toNat = n at e lo hi
      subst e
      interval_cases n <;> decide
  · subst h
    decide

theorem toLower_eq_hyphen (c : Char) (h : c.toLower = '-') : c = '-' := by
  cases hu : c.isUpper with
  | true => exact absurd h (toLower_of_isUpper c hu).2
  | false => rw [toLower_of_not_isUpper c hu] at h; exact h

theorem mem_sanitize_pre (name : Str) :
    ∀ c ∈ replaceRuns (fun c => c == '-') '-'
        (replaceRuns isWhiteSpace '-' (name.filter isFolderChar)),
      c.isLower = true ∨ c.isUpper = true ∨ c.isDigit = true ∨ c = '-' := by
  intro c hc
  rcases mem_replaceRuns _ _ _ c hc with h | ⟨h, _⟩
  · exact Or.inr (Or.inr (Or.inr h))
  · rcases mem_replaceRuns _ _ _ c h with h | ⟨h, hw⟩
    · exact Or.inr (Or.inr (Or.inr h))
    · have hf := (List.mem_filter.1 h).2
      simp [isFolderChar, hw] at hf
      rcases hf with ((hf | hf) | hf) | hf
      · exact Or.inl hf
      · exact Or.inr (Or.inl hf)
      · exact Or.inr (Or.inr (Or.inl hf))
      · exact Or.inr (Or.inr (Or.inr hf))

theorem mem_sanitize_lowered (name : Str) :
    ∀ c ∈ toLowerCase (replaceRuns (fun c => c == '-') '-'
        (replaceRuns isWhiteSpace '-' (name.filter isFolderChar))),
      c.isLower = true ∨ c.isDigit = true ∨ c = '-' := by
  intro c hc
  simp only [toLowerCase, List.mem_map] at hc
  obtain ⟨d, hd, rfl⟩ := hc
  cases hu : d.isUpper with
  | true => exact Or.inl (toLower_of_isUpper d hu).1
  | false =>
    rw [toLower_of_not_isUpper d hu]
    rcases mem_sanitize_pre name d hd with h | h | h | h
    · exact Or.inl h
    · rw [hu] at h; exact absurd h (by simp)
    · exact Or.inr (Or.inl h)
    · exact Or.inr (Or.inr h)

theorem sanitizeFolderName_eq (name : Str) :
    sanitizeFolderName name = toLowerCase (replaceRuns (fun c => c == '-') '-'
        (replaceRuns isWhiteSpace '-' (name.filter isFolderChar))) := by
  unfold sanitizeFolderName
  exact trim_eq_self _ fun c hc => (lowerClass_facts c (mem_sanitize_lowered name c hc)).1

theorem chain_sanitize (name : Str) :
    List.Chain' (fun a b : Char => ¬ (a = '-' ∧ b = '-')) (sanitizeFolderName name) := by
  rw [sanitizeFolderName_eq, toLowerCase, List.chain'_map]
  refine List.Chain'.imp ?_ (chain_replaceRuns_hyphen _)
  intro a b hab h
  exact hab ⟨toLower_eq_hyphen a h.1, toLower_eq_hyphen b h.2⟩

theorem sanitize_fixed (l : Str) (hc : ∀ c ∈ l, c.isLower = true ∨ c.isDigit = true ∨ c = '-')
    (hch : List.Chain' (fun a b : Char => ¬ (a = '-' ∧ b = '-')) l) :
    sanitizeFolderName l = l := by
  have h1 : l.filter isFolderChar = l :=
    List.filter_eq_self.2 fun c h => (lowerClass_facts c (hc c h)).2.1
  have h2 : replaceRuns isWhiteSpace '-' l = l :=
    replaceRuns_eq_self _ _ _ fun c h => (lowerClass_facts c (hc c h)).1
  have h3 : replaceRuns (fun c => c == '-') '-' l = l := replaceRuns_hyphen_eq_self l hch
  have h4 : toLowerCase l = l := by
    unfold toLowerCase
    conv_rhs => rw [← List.map_id l]
    exact List.map_congr_left fun c h =>
      toLower_of_not_isUpper c (lowerClass_facts c (hc c h)).2.2
  rw [sanitizeFolderName_eq, h1, h2, h3, h4]

/-- C10: for every input, the result of `sanitizeFolderName` consists of lower-case ASCII
letters, digits and hyphens only, holds no whitespace character and no two hyphens in a row,
and `sanitizeFolderName` maps it to itself. -/
theorem sanitizeFolderName_charset_idempotent (name : Str) :
    (∀ c ∈ sanitizeFolderName name, c.isLower = true ∨ c.isDigit = true ∨ c = '-') ∧
    (∀ c ∈ sanitizeFolderName name, isWhiteSpace c = false) ∧
    List.Chain' (fun a b : Char => ¬ (a = '-' ∧ b = '-')) (sanitizeFolderName name) ∧
    sanitizeFolderName (sanitizeFolderName name) = sanitizeFolderName name := by
  have hc : ∀ c ∈ sanitizeFolderName name, c.isLower = true ∨ c.isDigit = true ∨ c = '-' := by
    rw [sanitizeFolderName_eq]
    exact mem_sanitize_lowered name
  exact ⟨hc, fun c h => (lowerClass_facts c (hc c h)).1, chain_sanitize name,
    sanitize_fixed _ hc (chain_sanitize name)⟩

/-! ## Decimal rendering and the local file name -/

theorem digitChar_facts (m : Nat) (hm : m < 10) :
    (Nat.digitChar m).isDigit = true ∧ (Nat.digitChar m).toNat - 48 = m := by
  interval_cases m <;> decide

theorem foldl_decimal (l : Str) : ∀ a : Nat,
    l.foldl (fun a c => 10 * a + (c.toNat - 48)) a = a * 10 ^ l.length + decimalValue l := by
  induction l with
  | nil => intro a; simp [decimalValue]
  | cons c cs ih =>
    intro a
    simp only [decimalValue, List.foldl_cons, List.length_cons]
    rw [ih (10 * a + (c.toNat - 48)), ih (10 * 0 + (c.toNat - 48))]
    ring

theorem decimalValue_cons (c : Char) (l : Str) :
    decimalValue (c :: l) = (c.toNat - 48) * 10 ^ l.length + decimalValue l := by
  have := foldl_decimal l (10 * 0 + (c.toNat - 48))
  simp only [decimalValue, List.foldl_cons] at this ⊢
  rw [this]
  simp

theorem digits_of_render (fuel : Nat) : ∀ (n : Nat) (acc : Str),
    (∀ c ∈ acc, c.isDigit = true) → ∀ c ∈ Nat.toDigitsCore 10 fuel n acc, c.isDigit = true := by
  induction fuel with
  | zero => intro n acc h; simpa [Nat.toDigitsCore] using h
  | succ fuel ih =>
    intro n acc hacc
    have hd : ∀ c ∈ Nat.digitChar (n % 10) :: acc, c.isDigit = true := by
      intro c hc
      rcases List.mem_cons.1 hc with h | h
      · rw [h]
        exact (digitChar_facts _ (Nat.mod_lt _ (by omega))).1
      · exact hacc c h
    simp only [Nat.toDigitsCore]
    split_ifs
    · exact hd
    · exact ih _ _ hd

theorem value_of_render (fuel : Nat) : ∀ (n : Nat) (acc : Str), n < fuel →
    decimalValue (Nat.toDigitsCore 10 fuel n acc) = n * 10 ^ acc.length + decimalValue acc := by
  induction fuel with
  | zero => intro n acc h; omega
  | succ fuel ih =>
    intro n acc hn
    have hm := (digitChar_facts (n % 10) (Nat.mod_lt _ (by omega))).2
    simp only [Nat.toDigitsCore]
    split_ifs with h10
    · have hlt : n % 10 = n := by omega
      rw [decimalValue_cons, hm, hlt]
    · rw [ih (n / 10) _ (by omega), decimalValue_cons, hm, List.length_cons, pow_succ]
      have hn' : n = n / 10 * 10 + n % 10 := by omega
      generalize decimalValue acc = v
      generalize 10 ^ acc.length = w
      conv_rhs => rw [hn']
      ring

theorem numberToString_digits (n : Nat) : ∀ c ∈ numberToString n, c.isDigit = true :=
  digits_of_render (n + 1) n [] (by simp)

theorem decimalValue_numberToString (n : Nat) : decimalValue (numberToString n) = n := by
  have := value_of_render (n + 1) n [] (by omega)
  simpa [numberToString, Nat.toDigits, decimalValue] using this

theorem numberToString_injective (m n : Nat) (h : numberToString m = numberToString n) :
    m = n := by
  have := congrArg decimalValue h
  rwa [decimalValue_numberToString, decimalValue_numberToString] at this

theorem append_cons_inj_of_class (p : Char → Bool) (l1 l2 r1 r2 : Str) (a b : Char)
    (h1 : ∀ c ∈ l1, p c = true) (h2 : ∀ c ∈ l2, p c = true) (ha : p a = false)
    (hb : p b = false) (h : l1 ++ a :: r1 = l2 ++ b :: r2) : l1 = l2 ∧ r1 = r2 := by
  induction l1 generalizing l2 with
  | nil =>
    cases l2 with
    | nil => simp at h; exact ⟨rfl, h.2⟩
    | cons x xs =>
      simp at h
      have := h2 x (by simp)
      rw [← h.1, ha] at this
      exact absurd this (by simp)
  | cons y ys ih =>
    cases l2 with
    | nil =>
      simp at h
      have := h1 y (by simp)
      rw [h.1, hb] at this
      exact absurd this (by simp)
    | cons x xs =>
      simp at h
      obtain ⟨e1, e2⟩ := ih xs (fun c hc => h1 c (by simp [hc])) (fun c hc => h2 c (by simp [hc])) h.2
      exact ⟨by rw [h.1, e1], e2⟩

theorem whitelist_starts_with_dot (e : Str) (h : e ∈ extensionWhitelist) :
    ∃ t, e = '.' :: t := by
  simp only [extensionWhitelist, List.mem_cons, List.mem_singleton, List.not_mem_nil,
    or_false] at h
  rcases h with h | h | h | h | h | h <;> exact ⟨_, h⟩

/-- C6: the file names `image_{p}_{i+1}{e}` of two images differ as soon as their page counters
or their indices differ, whatever whitelisted extensions they carry.  So the names given to
the images of one page are pairwise distinct, and so are the names given on different pages
that write to the same `images` directory. -/
theorem imageFileName_injective (p p' i i' : Nat) (e e' : Str)
    (he : e ∈ extensionWhitelist) (he' : e' ∈ extensionWhitelist) (hne : (p, i) ≠ (p', i')) :
    imageFileName p i e ≠ imageFileName p' i' e' := by
  intro h
  obtain ⟨t, rfl⟩ := whitelist_starts_with_dot e he
  obtain ⟨t', rfl⟩ := whitelist_starts_with_dot e' he'
  simp only [imageFileName, List.append_assoc] at h
  have h0 := List.append_cancel_left h
  have hs : "_".toList = ['_'] := rfl
  rw [hs] at h0
  simp only [List.singleton_append] at h0
  obtain ⟨hp, hrest⟩ := append_cons_inj_of_class Char.isDigit _ _ _ _ '_' '_'
    (numberToString_digits p) (numberToString_digits p') (by decide) (by decide) h0
  obtain ⟨hi, _⟩ := append_cons_inj_of_class Char.isDigit _ _ _ _ '.' '.'
    (numberToString_digits (i + 1)) (numberToString_digits (i' + 1)) (by decide) (by decide)
    hrest
  have e1 := numberToString_injective _ _ hp
  have e2 := numberToString_injective _ _ hi
  apply hne
  rw [e1, Nat.succ_injective e2]

/-- C6 at two images of page 1 and at the first images of pages 1 and 11. -/
theorem imageFileName_injective_witness :
    imageFileName 1 0 ".png".toList ≠ imageFileName 1 1 ".png".toList ∧
      imageFileName 1 10 ".jpg".toList ≠ imageFileName 11 0 ".jpg".toList :=
  ⟨imageFileName_injective 1 1 0 1 _ _ (by decide) (by decide) (by decide),
    imageFileName_injective 1 11 10 0 _ _ (by decide) (by decide) (by decide)⟩

/-! ## `getImageExtension` -/

/-- C5, as the claim has it, fails: on the relative URL `/img/a.png`, which the loop passes on
from a `data-src` or `srcset` attribute, `new URL` throws and `getImageExtension` returns
nothing. -/
theorem getImageExtension_relative_url_throws :
    getImageExtension plainPathOf "/img/a.png".toList = .error ⟨"Invalid URL".toList⟩ ∧
      ¬ ∃ e, getImageExtension plainPathOf "/img/a.png".toList = .ok e := by
  have h : getImageExtension plainPathOf "/img/a.png".toList = .error ⟨"Invalid URL".toList⟩ :=
    rfl
  refine ⟨h, ?_⟩
  rintro ⟨e, he⟩
  rw [h] at he
  cases he

theorem pick_extension (x : Str) :
    (if !x.isEmpty && extensionWhitelist.contains x then x else ".png".toList)
        ∈ extensionWhitelist ∧
      (x ∈ extensionWhitelist →
        (if !x.isEmpty && extensionWhitelist.contains x then x else ".png".toList) = x) ∧
      (x ∉ extensionWhitelist →
        (if !x.isEmpty && extensionWhitelist.contains x then x else ".png".toList)
          = ".png".toList) := by
  by_cases hx : x ∈ extensionWhitelist
  · have hc : extensionWhitelist.contains x = true := by simpa using hx
    have hne : x.isEmpty = false := by
      obtain ⟨t, ht⟩ := whitelist_starts_with_dot _ hx
      rw [ht]
      rfl
    simp only [hc, hne, Bool.not_false, Bool.and_self, if_true]
    exact ⟨hx, fun _ => trivial, fun hn => absurd hx hn⟩
  · have hc : extensionWhitelist.contains x = false := by simpa using hx
    simp only [hc, Bool.and_false, Bool.false_eq_true, if_false]
    exact ⟨by decide, fun hy => absurd hy hx, fun _ => trivial⟩

/-- C5, amended: on every input that `new URL` accepts, with path `pathname`,
`getImageExtension` returns normally, the value is in the whitelist, and it is the lower-cased
`path.extname` of the last `/`-piece of the path when that is whitelisted and `.png`
otherwise. -/
theorem getImageExtension_whitelisted (pathOf : Str → Option Str) (url pathname : Str)
    (h : urlPathname pathOf url = .ok pathname) :
    ∃ e, getImageExtension pathOf url = .ok e ∧ e ∈ extensionWhitelist ∧
      (toLowerCase ((extname ((split '/' pathname).getLastD [])).takeWhile fun c => c != '?')
          ∈ extensionWhitelist →
        e = toLowerCase
          ((extname ((split '/' pathname).getLastD [])).takeWhile fun c => c != '?')) ∧
      (toLowerCase ((extname ((split '/' pathname).getLastD [])).takeWhile fun c => c != '?')
          ∉ extensionWhitelist →
        e = ".png".toList) := by
  simp only [getImageExtension, h, head_split]
  exact ⟨_, rfl, pick_extension _⟩

/-- The amended C5 at `https://h/a/b/pic.JPG?w=100`. -/
theorem getImageExtension_whitelisted_witness :
    ∃ e, getImageExtension plainPathOf "https://h/a/b/pic.JPG?w=100".toList = .ok e ∧
      e ∈ extensionWhitelist ∧
      (toLowerCase ((extname ((split '/' "/a/b/pic.JPG".toList).getLastD [])).takeWhile
          fun c => c != '?') ∈ extensionWhitelist →
        e = toLowerCase ((extname ((split '/' "/a/b/pic.JPG".toList).getLastD [])).takeWhile
          fun c => c != '?')) ∧
      (toLowerCase ((extname ((split '/' "/a/b/pic.JPG".toList).getLastD [])).takeWhile
          fun c => c != '?') ∉ extensionWhitelist →
        e = ".png".toList) :=
  getImageExtension_whitelisted plainPathOf "https://h/a/b/pic.JPG?w=100".toList
    "/a/b/pic.JPG".toList rfl

/-! ## The choice of the URL to download -/

/-- C4 fails on the code: for an image without `src` and `data-src` whose `srcset` separates
the first URL from its descriptor by a tab, the first whitespace-delimited segment of the first
entry, which the claim says is chosen, is the URL `https://h/a.jpg`; the loop, which cuts the
entry at the space character only, chooses the entry whole, descriptor included. -/
theorem chooseImageUrl_tab_separated :
    chooseImageUrl tabSrcsetImage = "https://h/a.jpg\t2x".toList ∧
      claimedImageUrl tabSrcsetImage = "https://h/a.jpg".toList ∧
      chooseImageUrl tabSrcsetImage ≠ claimedImageUrl tabSrcsetImage := by
  decide

/-- What the loop chooses: the URL is the resolved `src` when it is not empty, otherwise
`data-src` when it is not empty, otherwise what is left of the first comma-separated entry of
`srcset` after trimming it and cutting it at its first space character (U+0020).  When the
three are empty the chosen URL is empty, no download is started and the candidate is left as
it was. -/
theorem chooseImageUrl_priority (image : Image) :
    chooseImageUrl image =
      (if image.originalSrc ≠ [] then image.originalSrc
       else if image.dataSrc ≠ [] then image.dataSrc
       else (trim (image.srcset.takeWhile fun c => c != ',')).takeWhile fun c => c != ' ') ∧
    (image.originalSrc = [] → image.dataSrc = [] → image.srcset = [] →
      chooseImageUrl image = [] ∧
      ∀ (pathOf : Str → Option Str) (outcome : DownloadOutcome) (pageCounter i : Nat),
        processImage pathOf outcome pageCounter i image = .ok (image, [])) := by
  have hlen : (split ',' image.srcset).length > 0 := by
    rw [length_split]
    omega
  constructor
  · unfold chooseImageUrl
    by_cases h1 : image.originalSrc = []
    · by_cases h2 : image.dataSrc = []
      · by_cases h3 : image.srcset = []
        · simp [h1, h2, h3, trim]
        · simp only [h1, h2, h3, List.isEmpty_nil, Bool.not_true, Bool.and_false,
            Bool.false_eq_true, if_false, ne_eq, not_true_eq_false, hlen, if_true,
            head_split]
          simp [List.isEmpty_iff, h3]
      · simp [h1, h2, List.isEmpty_iff]
    · simp [h1, List.isEmpty_iff]
  · intro h1 h2 h3
    have hc : chooseImageUrl image = [] := by
      simp [chooseImageUrl, h1, h2, h3]
    refine ⟨hc, ?_⟩
    intro pathOf outcome pageCounter i
    simp [processImage, hc]

/-- An image without `src`, `data-src` and `srcset` starts no download. -/
theorem chooseImageUrl_priority_witness :
    chooseImageUrl bareImage = [] ∧
      ∀ (pathOf : Str → Option Str) (outcome : DownloadOutcome) (pageCounter i : Nat),
        processImage pathOf outcome pageCounter i bareImage = .ok (bareImage, []) :=
  (chooseImageUrl_priority bareImage).2 rfl rfl rfl

/-! ## `extractMarkdownContent` -/

theorem infix_middle (a b c : Str) : b <:+: a ++ b ++ c := ⟨a, c, rfl⟩

theorem placeholder_text :
    "# Error Extracting Content\n\nFailed to extract content from ".toList
      = "# ".toList ++ "Error Extracting Content".toList ++ "\n\n".toList
        ++ "Failed to extract content from ".toList := by
  decide

theorem catchOutcome_of_thrown (pathOf : Str → Option Str) (run : PageRun) (url : Str)
    (pageCounter : Nat) (t : Thrown) (h : extractTry pathOf run pageCounter = .error t) :
    CatchOutcome url t (extractMarkdownContent pathOf run url pageCounter) := by
  simp only [extractMarkdownContent, h]
  cases t <;> simp [CatchOutcome, Thrown.readMessage, placeholder_text]

/-- C7, as the claim has it, fails: when an awaited call rejects with `null`, here
`page.goto`, the `catch` of lines 320-323 throws in turn at `error.message`, and that
`TypeError` leaves `extractMarkdownContent`: no document is returned. -/
theorem extractMarkdownContent_null_propagates :
    extractMarkdownContent plainPathOf nullRejectionRun
        "https://docs.site/main/guide/intro".toList 1
      = .error ⟨"Cannot read properties of null (reading 'message')".toList⟩ ∧
    ¬ ∃ document, extractMarkdownContent plainPathOf nullRejectionRun
        "https://docs.site/main/guide/intro".toList 1 = .ok document := by
  have h : extractMarkdownContent plainPathOf nullRejectionRun
      "https://docs.site/main/guide/intro".toList 1
        = .error ⟨"Cannot read properties of null (reading 'message')".toList⟩ := rfl
  refine ⟨h, ?_⟩
  rintro ⟨document, hd⟩
  rw [h] at hd
  cases hd

/-- C7, amended.  When every awaited call returns, `extractMarkdownContent` returns
`"# " + title + "\n\n" + body` with the extracted page title and the rewritten Markdown of the
converter.  When a call throws, the calls before it having returned, the outcome is the one
`CatchOutcome` spells out for the thrown value: for every value other than `null` and
`undefined` the function returns `"# Error Extracting Content\n\n" + notice`, where the notice
is not empty, holds the URL of the page and holds the message of the error when what was
thrown is an `Error` object; for `null` and `undefined` the `catch` itself throws. -/
theorem extractMarkdownContent_outcomes (pathOf : Str → Option Str) (run : PageRun) (url : Str)
    (pageCounter : Nat) :
    (∀ (title : Str) (imageMap : List Image) (processed : List Image × List Attempt)
        (contentHTML markdown : Str),
      run.setViewport = .ok () → run.goto = .ok () → run.ensureImagesDir = .ok () →
      run.hideChrome = .ok () → run.pageTitle = .ok title → run.imageMap = .ok imageMap →
      processImages pathOf run.download pageCounter 0 imageMap = .ok processed →
      run.contentHTML = .ok contentHTML → run.turndown contentHTML = .ok markdown →
      extractMarkdownContent pathOf run url pageCounter
        = .ok ("# ".toList ++ title ++ "\n\n".toList ++ rewriteImages processed.1 markdown)) ∧
    (∀ t, run.setViewport = .error t →
      CatchOutcome url t (extractMarkdownContent pathOf run url pageCounter)) ∧
    (∀ t, run.setViewport = .ok () → run.goto = .error t →
      CatchOutcome url t (extractMarkdownContent pathOf run url pageCounter)) ∧
    (∀ t, run.setViewport = .ok () → run.goto = .ok () → run.ensureImagesDir = .error t →
      CatchOutcome url t (extractMarkdownContent pathOf run url pageCounter)) ∧
    (∀ t, run.setViewport = .ok () → run.goto = .ok () → run.ensureImagesDir = .ok () →
      run.hideChrome = .error t →
      CatchOutcome url t (extractMarkdownContent pathOf run url pageCounter)) ∧
    (∀ t, run.setViewport = .ok () → run.goto = .ok () → run.ensureImagesDir = .ok () →
      run.hideChrome = .ok () → run.pageTitle = .error t →
      CatchOutcome url t (extractMarkdownContent pathOf run url pageCounter)) ∧
    (∀ t title, run.setViewport = .ok () → run.goto = .ok () → run.ensureImagesDir = .ok () →
      run.hideChrome = .ok () → run.pageTitle = .ok title → run.imageMap = .error t →
      CatchOutcome url t (extractMarkdownContent pathOf run url pageCounter)) ∧
    (∀ e title imageMap, run.setViewport = .ok () → run.goto = .ok () →
      run.ensureImagesDir = .ok () → run.hideChrome = .ok () → run.pageTitle = .ok title →
      run.imageMap = .ok imageMap →
      processImages pathOf run.download pageCounter 0 imageMap = .error e →
      CatchOutcome url (.errorObject e) (extractMarkdownContent pathOf run url pageCounter)) ∧
    (∀ t title imageMap processed, run.setViewport = .ok () → run.goto = .ok () →
      run.ensureImagesDir = .ok () → run.hideChrome = .ok () → run.pageTitle = .ok title →
      run.imageMap = .ok imageMap →
      processImages pathOf run.download pageCounter 0 imageMap = .ok processed →
      run.contentHTML = .error t →
      CatchOutcome url t (extractMarkdownContent pathOf run url pageCounter)) ∧
    (∀ t title imageMap processed contentHTML, run.setViewport = .ok () → run.goto = .ok () →
      run.ensureImagesDir = .ok () → run.hideChrome = .ok () → run.pageTitle = .ok title →
      run.imageMap = .ok imageMap →
      processImages pathOf run.download pageCounter 0 imageMap = .ok processed →
      run.contentHTML = .ok contentHTML → run.turndown contentHTML = .error t →
      CatchOutcome url t (extractMarkdownContent pathOf run url pageCounter)) ∧
    (∀ (t : Thrown) (r : Except JsError Str), CatchOutcome url t r → t ≠ .null →
      t ≠ .undefined →
      ∃ notice : Str,
        r = .ok ("# ".toList ++ "Error Extracting Content".toList ++ "\n\n".toList ++ notice) ∧
        notice ≠ [] ∧ url <:+: notice ∧ ∀ e, t = .errorObject e → e.message <:+: notice) := by
  refine ⟨?_, ?_, ?_, ?_, ?_, ?_, ?_, ?_, ?_, ?_, ?_⟩
  · intro title imageMap processed contentHTML markdown h1 h2 h3 h4 h5 h6 h7 h8 h9
    simp only [extractMarkdownContent, extractTry, h1, h2, h3, h4, h5, h6, h7, h8, h9]
  · intro t h1
    exact catchOutcome_of_thrown _ _ _ _ _ (by simp only [extractTry, h1])
  · intro t h1 h2
    exact catchOutcome_of_thrown _ _ _ _ _ (by simp only [extractTry, h1, h2])
  · intro t h1 h2 h3
    exact catchOutcome_of_thrown _ _ _ _ _ (by simp only [extractTry, h1, h2, h3])
  · intro t h1 h2 h3 h4
    exact catchOutcome_of_thrown _ _ _ _ _ (by simp only [extractTry, h1, h2, h3, h4])
  · intro t h1 h2 h3 h4 h5
    exact catchOutcome_of_thrown _ _ _ _ _ (by simp only [extractTry, h1, h2, h3, h4, h5])
  · intro t title h1 h2 h3 h4 h5 h6
    exact catchOutcome_of_thrown _ _ _ _ _ (by simp only [extractTry, h1, h2, h3, h4, h5, h6])
  · intro e title imageMap h1 h2 h3 h4 h5 h6 h7
    exact catchOutcome_of_thrown _ _ _ _ _
      (by simp only [extractTry, h1, h2, h3, h4, h5, h6, h7])
  · intro t title imageMap processed h1 h2 h3 h4 h5 h6 h7 h8
    exact catchOutcome_of_thrown _ _ _ _ _
      (by simp only [extractTry, h1, h2, h3, h4, h5, h6, h7, h8])
  · intro t title imageMap processed contentHTML h1 h2 h3 h4 h5 h6 h7 h8 h9
    exact catchOutcome_of_thrown _ _ _ _ _
      (by simp only [extractTry, h1, h2, h3, h4, h5, h6, h7, h8, h9])
  · intro t r h hn hu
    cases t with
    | errorObject e =>
      refine ⟨"Failed to extract content from ".toList ++ url ++ ". Error: ".toList
        ++ e.message, h, by simp, ?_, ?_⟩
      · exact ⟨"Failed to extract content from ".toList, ". Error: ".toList ++ e.message,
          by simp⟩
      · intro e' he
        cases he
        exact ⟨"Failed to extract content from ".toList ++ url ++ ". Error: ".toList, [],
          by simp⟩
    | primitive =>
      refine ⟨"Failed to extract content from ".toList ++ url ++ ". Error: ".toList
        ++ "undefined".toList, h, by simp, ?_, ?_⟩
      · exact ⟨"Failed to extract content from ".toList,
          ". Error: ".toList ++ "undefined".toList, by simp⟩
      · intro e' he
        cases he
    | null => exact absurd rfl hn
    | undefined => exact absurd rfl hu

/-- The amended C7 at the page of `onePictureRun`: with every call returning, and with
`page.goto` rejecting with an `Error` whose message is `net::ERR_NAME_NOT_RESOLVED`. -/
theorem extractMarkdownContent_outcomes_witness :
    extractMarkdownContent plainPathOf (onePictureRun .finished)
        "https://docs.site/main/guide/intro".toList 1
      = .ok ("# ".toList ++ "Guide".toList ++ "\n\n".toList
          ++ "![diagram](./images/image_1_1.png)".toList) ∧
    CatchOutcome "https://docs.site/main/guide/intro".toList
      (.errorObject ⟨"net::ERR_NAME_NOT_RESOLVED".toList⟩)
      (extractMarkdownContent plainPathOf
        { onePictureRun .finished with
          goto := .error (.errorObject ⟨"net::ERR_NAME_NOT_RESOLVED".toList⟩) }
        "https://docs.site/main/guide/intro".toList 1) :=
  ⟨(extractMarkdownContent_outcomes plainPathOf (onePictureRun .finished)
      "https://docs.site/main/guide/intro".toList 1).1 "Guide".toList
      [{ originalSrc := "https://cdn.example.com/a/img.png".toList, dataSrc := [],
         srcset := [], alt := "diagram".toList }]
      ([downloadedPicture "https://cdn.example.com/a/img.png".toList "diagram".toList],
        [("https://cdn.example.com/a/img.png".toList, "image_1_1.png".toList)])
      "<p><img src=\"https://cdn.example.com/a/img.png\" alt=\"diagram\"></p>".toList
      "![diagram](https://cdn.example.com/a/img.png)".toList
      rfl rfl rfl rfl rfl rfl rfl rfl rfl,
    (extractMarkdownContent_outcomes plainPathOf
      { onePictureRun .finished with
        goto := .error (.errorObject ⟨"net::ERR_NAME_NOT_RESOLVED".toList⟩) }
      "https://docs.site/main/guide/intro".toList 1).2.2.1 _ rfl rfl⟩

/-! ## A download that fails -/

/-- C1 fails on the code: when the request for the image is rejected (network error, status
outside 2xx), `downloadImage` catches the rejection itself and returns, so the loop goes on to
set `localPath` and the reference in the Markdown is rewritten to a file that was never
written.  Only an error of the write stream, which rejects the promise, leaves the candidate
without `localPath` and the reference as it was. -/
theorem requestFailed_still_rewritten :
    extractMarkdownContent plainPathOf
        (onePictureRun
          (.requestFailed (.errorObject ⟨"getaddrinfo ENOTFOUND cdn.example.com".toList⟩)))
        "https://docs.site/main/guide/intro".toList 1
      = .ok "# Guide\n\n![diagram](./images/image_1_1.png)".toList ∧
    extractMarkdownContent plainPathOf
        (onePictureRun
          (.writeFailed (.errorObject ⟨"ENOSPC: no space left on device".toList⟩)))
        "https://docs.site/main/guide/intro".toList 1
      = .ok "# Guide\n\n![diagram](https://cdn.example.com/a/img.png)".toList :=
  ⟨rfl, rfl⟩

/-! ## Reading the patterns -/

theorem preadFrom_append (a b : Str) : ∀ st : PState,
    preadFrom st (a ++ b) = (preadFrom st a).bind fun st' => preadFrom st' b := by
  induction a with
  | nil => intro st; simp [preadFrom]
  | cons c cs ih =>
    intro st
    simp only [List.cons_append, preadFrom]
    cases pstep st c with
    | none => simp
    | some st' => simpa using ih st'

theorem preadFrom_escapeRegExp (u : Str) : ∀ (out : List Node) (groups : Nat)
    (openGroups : List Nat),
    preadFrom ⟨.normal, out, groups, openGroups⟩ (escapeRegExp u)
      = some ⟨.normal, (literalNodes u).reverse ++ out, groups, openGroups⟩ := by
  induction u with
  | nil => intro out groups openGroups; simp [escapeRegExp, literalNodes, preadFrom]
  | cons c cs ih =>
    intro out groups openGroups
    have hcons : escapeRegExp (c :: cs)
        = (if isEscaped c then ['\\', c] else [c]) ++ escapeRegExp cs := by
      simp [escapeRegExp]
    rw [hcons, preadFrom_append]
    by_cases hc : isEscaped c = true
    · have hs : isSyntaxChar c = true := by
        simp only [isEscaped, Bool.or_eq_true, beq_iff_eq] at hc
        simp only [isSyntaxChar, Bool.or_eq_true, beq_iff_eq]
        tauto
      have h1 : preadFrom ⟨.normal, out, groups, openGroups⟩ ['\\', c]
          = some ⟨.normal, .atom (.chr c) :: out, groups, openGroups⟩ := by
        simp [preadFrom, pstep, hs]
      rw [if_pos hc, h1]
      simp only [Option.some_bind]
      rw [ih]
      simp [literalNodes]
    · have hc' : isEscaped c = false := by simpa using hc
      have hs : isSyntaxChar c = false := by
        simp only [isEscaped, Bool.or_eq_false_iff, beq_eq_false_iff_ne] at hc'
        simp only [isSyntaxChar, Bool.or_eq_false_iff, beq_eq_false_iff_ne]
        tauto
      have hne : c ≠ '\\' ∧ c ≠ '[' ∧ c ≠ '(' ∧ c ≠ ')' ∧ c ≠ '*' ∧ c ≠ '?' ∧ c ≠ '.' := by
        simp only [isEscaped, Bool.or_eq_false_iff, beq_eq_false_iff_ne] at hc'
        tauto
      have h1 : preadFrom ⟨.normal, out, groups, openGroups⟩ [c]
          = some ⟨.normal, .atom (.chr c) :: out, groups, openGroups⟩ := by
        simp [preadFrom, pstep, hs, hne.1, hne.2.1, hne.2.2.1, hne.2.2.2.1, hne.2.2.2.2.1,
          hne.2.2.2.2.2.1, hne.2.2.2.2.2.2]
      rw [if_neg hc, h1]
      simp only [Option.some_bind]
      rw [ih]
      simp [literalNodes]

/-- The pattern of pass 1 is accepted for every URL, and the URL is read as a literal: the
compiled pattern is `!\[(.*?)\]\(`, the characters of the URL one by one, `\)`. -/
theorem parse_pattern1 (u : Str) :
    parseRegExp (pattern1 u)
      = some ⟨referenceHead ++ literalNodes u ++ [.atom (.chr ')')], 1⟩ := by
  have h0 : preadFrom {} "!\\[(.*?)\\]\\(".toList
      = some ⟨.normal, referenceHead.reverse, 1, []⟩ := by decide
  have h2 : ∀ out : List Node, preadFrom ⟨.normal, out, 1, []⟩ "\\)".toList
      = some ⟨.normal, .atom (.chr ')') :: out, 1, []⟩ := by
    intro out
    rfl
  simp only [parseRegExp, pattern1, preadFrom_append, h0, Option.some_bind,
    preadFrom_escapeRegExp, h2]
  simp

/-- The pattern of passes 2 and 3 is accepted for every URL, and the URL is read as a
literal. -/
theorem parse_pattern2 (u : Str) :
    parseRegExp (pattern2 u)
      = some ⟨referenceHead ++ literalNodes u
          ++ [.star (.cls true [')']) true, .atom (.chr ')')], 1⟩ := by
  have h0 : preadFrom {} "!\\[(.*?)\\]\\(".toList
      = some ⟨.normal, referenceHead.reverse, 1, []⟩ := by decide
  have h2 : ∀ out : List Node, preadFrom ⟨.normal, out, 1, []⟩ "[^)]*\\)".toList
      = some ⟨.normal, .atom (.chr ')') :: .star (.cls true [')']) true :: out, 1, []⟩ := by
    intro out
    rfl
  simp only [parseRegExp, pattern2, preadFrom_append, h0, Option.some_bind,
    preadFrom_escapeRegExp, h2]
  simp

/-- The pattern of pass 4 is accepted for every file name, and the name is read as a
literal. -/
theorem parse_pattern4 (f : Str) :
    parseRegExp (pattern4 f)
      = some ⟨referenceHead ++ [.star (.cls true [')']) true] ++ literalNodes f
          ++ [.star (.cls true [')']) true, .atom (.chr ')')], 1⟩ := by
  have h0 : preadFrom {} "!\\[(.*?)\\]\\([^)]*".toList
      = some ⟨.normal, .star (.cls true [')']) true :: referenceHead.reverse, 1, []⟩ := by
    decide
  have h2 : ∀ out : List Node, preadFrom ⟨.normal, out, 1, []⟩ "[^)]*\\)".toList
      = some ⟨.normal, .atom (.chr ')') :: .star (.cls true [')']) true :: out, 1, []⟩ := by
    intro out
    rfl
  simp only [parseRegExp, pattern4, preadFrom_append, h0, Option.some_bind,
    preadFrom_escapeRegExp, h2]
  simp

/-! ## The matcher -/

theorem starLazy_pos_le (a : Atom) (k : MatchState → Str → Option MatchState)
    (hk : ∀ st s r, k st s = some r → st.pos ≤ r.pos) :
    ∀ (s : Str) (st r : MatchState), starLazy a k st s = some r → st.pos ≤ r.pos := by
  intro s
  induction s with
  | nil => intro st r h; exact hk st [] r (by simpa [starLazy] using h)
  | cons c cs ih =>
    intro st r h
    simp only [starLazy] at h
    cases hks : k st (c :: cs) with
    | some r' =>
      rw [hks] at h
      simp only [Option.some.injEq] at h
      subst h
      exact hk _ _ _ hks
    | none =>
      rw [hks] at h
      by_cases ht : a.test c = true
      · simp only [ht, if_true] at h
        have := ih st.advance r h
        simp only [MatchState.advance] at this
        omega
      · simp [ht] at h

theorem starGreedy_pos_le (a : Atom) (k : MatchState → Str → Option MatchState)
    (hk : ∀ st s r, k st s = some r → st.pos ≤ r.pos) :
    ∀ (s : Str) (st r : MatchState), starGreedy a k st s = some r → st.pos ≤ r.pos := by
  intro s
  induction s with
  | nil => intro st r h; exact hk st [] r (by simpa [starGreedy] using h)
  | cons c cs ih =>
    intro st r h
    simp only [starGreedy] at h
    by_cases ht : a.test c = true
    · simp only [ht, if_true] at h
      cases hg : starGreedy a k st.advance cs with
      | some r' =>
        rw [hg] at h
        simp only [Option.some.injEq] at h
        subst h
        have := ih st.advance r' hg
        simp only [MatchState.advance] at this
        omega
      | none =>
        rw [hg] at h
        exact hk _ _ _ h
    · simp only [ht] at h
      exact hk _ _ _ (by simpa using h)

theorem matchNodes_pos_le (ns : List Node) :
    ∀ (st : MatchState) (s : Str) (r : MatchState), matchNodes ns st s = some r →
      st.pos ≤ r.pos := by
  induction ns with
  | nil =>
    intro st s r h
    simp only [matchNodes, Option.some.injEq] at h
    subst h
    exact le_refl _
  | cons n ns ih =>
    intro st s r h
    cases n with
    | atom a =>
      cases s with
      | nil => simp [matchNodes] at h
      | cons c cs =>
        simp only [matchNodes] at h
        by_cases ht : a.test c = true
        · simp only [ht, if_true] at h
          have := ih _ _ _ h
          simp only [MatchState.advance] at this
          omega
        · simp [ht] at h
    | star a greedy =>
      simp only [matchNodes] at h
      cases greedy with
      | true =>
        simp only [if_true] at h
        exact starGreedy_pos_le a _ ih s st r h
      | false =>
        simp only [Bool.false_eq_true, if_false] at h
        exact starLazy_pos_le a _ ih s st r h
    | groupOpen i =>
      simp only [matchNodes] at h
      have := ih _ _ _ h
      exact this
    | groupClose i =>
      simp only [matchNodes] at h
      have := ih _ _ _ h
      exact this

theorem matchNodes_literal (l : Str) (rest : List Node) : ∀ (p : Nat) (o : List (Nat × Nat))
    (c : List (Nat × Nat × Nat)) (s : Str),
    matchNodes (literalNodes l ++ rest) ⟨p, o, c⟩ (l ++ s)
      = matchNodes rest ⟨p + l.length, o, c⟩ s := by
  induction l with
  | nil => intro p o c s; simp [literalNodes]
  | cons a t ih =>
    intro p o c s
    have e1 : literalNodes (a :: t) ++ rest = .atom (.chr a) :: (literalNodes t ++ rest) := rfl
    have e2 : (a :: t) ++ s = a :: (t ++ s) := rfl
    rw [e1, e2]
    simp only [matchNodes, Atom.test, beq_self_eq_true, if_true, MatchState.advance]
    rw [ih (p + 1) o c s]
    simp [Nat.add_assoc, Nat.add_comm 1]

theorem starLazy_isSome (a : Atom) (k : MatchState → Str → Option MatchState) (t : Str) :
    ∀ (x : Str) (p : Nat) (o : List (Nat × Nat)) (c : List (Nat × Nat × Nat)),
      (∀ d ∈ x, a.test d = true) → (k ⟨p + x.length, o, c⟩ t).isSome = true →
      (starLazy a k ⟨p, o, c⟩ (x ++ t)).isSome = true := by
  intro x
  induction x with
  | nil =>
    intro p o c _ hk
    simp only [List.length_nil, Nat.add_zero, List.nil_append] at hk ⊢
    cases t with
    | nil => simpa [starLazy] using hk
    | cons d ds =>
      simp only [starLazy]
      cases hks : k ⟨p, o, c⟩ (d :: ds) with
      | some r => simp
      | none => rw [hks] at hk; simp at hk
  | cons y ys ih =>
    intro p o c hx hk
    simp only [List.cons_append, starLazy]
    cases hks : k ⟨p, o, c⟩ (y :: (ys ++ t)) with
    | some r => simp
    | none =>
      simp only [hx y (by simp), if_true, MatchState.advance]
      apply ih (p + 1) o c (fun d hd => hx d (by simp [hd]))
      simpa [Nat.add_assoc, Nat.add_comm 1] using hk

/-- At an image reference `![x](u)` whose alternative text holds no line terminator, the
pattern of pass 1 for `u` has a match, and the match is not empty. -/
theorem pattern1_matches_reference (u x post : Str)
    (hx : ∀ c ∈ x, isLineTerminator c = false) :
    ∃ r, matchNodes (referenceHead ++ literalNodes u ++ [.atom (.chr ')')]) {}
        ("![".toList ++ x ++ "](".toList ++ u ++ ")".toList ++ post) = some r ∧ 0 < r.pos := by
  have hsome : (matchNodes (referenceHead ++ literalNodes u ++ [.atom (.chr ')')]) {}
      ("![".toList ++ x ++ "](".toList ++ u ++ ")".toList ++ post)).isSome = true := by
    have e : "![".toList ++ x ++ "](".toList ++ u ++ ")".toList ++ post
        = '!' :: '[' :: (x ++ (']' :: '(' :: (u ++ (')' :: post)))) := by simp
    have en : referenceHead ++ literalNodes u ++ [.atom (.chr ')')]
        = .atom (.chr '!') :: .atom (.chr '[') :: .groupOpen 1 :: .star .dot false
          :: .groupClose 1 :: .atom (.chr ']') :: .atom (.chr '(')
          :: (literalNodes u ++ [.atom (.chr ')')]) := rfl
    rw [e, en]
    simp only [matchNodes, Atom.test, beq_self_eq_true, if_true, MatchState.advance,
      Bool.false_eq_true, if_false]
    apply starLazy_isSome
    · intro d hd
      simp [Atom.test, hx d hd]
    · simp only [matchNodes, Atom.test, beq_self_eq_true, if_true, MatchState.advance]
      rw [matchNodes_literal]
      simp [matchNodes, Atom.test]
  obtain ⟨r, hr⟩ := Option.isSome_iff_exists.1 hsome
  refine ⟨r, hr, ?_⟩
  have hle : ∀ (ns : List Node) (s : Str) (r : MatchState),
      matchNodes (.atom (.chr '!') :: ns) {} s = some r → 0 < r.pos := by
    intro ns s r h
    cases s with
    | nil => simp [matchNodes] at h
    | cons c cs =>
      simp only [matchNodes] at h
      by_cases ht : (Atom.chr '!').test c = true
      · simp only [ht, if_true] at h
        have := matchNodes_pos_le _ _ _ _ h
        simp only [MatchState.advance] at this
        omega
      · simp [ht] at h
  exact hle _ _ r (by simpa [referenceHead] using hr)

/-- Whatever precedes an offset `p` of the input at which the pattern has a match that is not
empty, one of the matches the scan collects covers that offset. -/
theorem scanMatches_covers (re : RegExp) : ∀ (s : Str) (index skip p : Nat), skip ≤ p →
    (∃ r, matchNodes re.nodes {} (s.drop p) = some r ∧ 0 < r.pos ∧ s.drop p ≠ []) →
    ∃ m ∈ scanMatches re s index skip,
      m.index ≤ index + p ∧ index + p < m.index + m.matched.length := by
  intro s
  induction s with
  | nil =>
    intro index skip p _ h
    obtain ⟨r, _, _, hne⟩ := h
    simp at hne
  | cons c cs ih =>
    intro index skip p hskip h
    cases skip with
    | succ k =>
      cases p with
      | zero => omega
      | succ p' =>
        obtain ⟨m, hm, h1, h2⟩ := ih (index + 1) k p' (by omega) (by simpa using h)
        exact ⟨m, by simpa [scanMatches] using hm, by omega, by omega⟩
    | zero =>
      cases hm0 : matchNodes re.nodes {} (c :: cs) with
      | none =>
        have hscan : scanMatches re (c :: cs) index 0 = scanMatches re cs (index + 1) 0 := by
          simp [scanMatches, matchAt, hm0]
        cases p with
        | zero =>
          obtain ⟨r, hr, _, _⟩ := h
          simp only [List.drop_zero] at hr
          rw [hm0] at hr
          cases hr
        | succ p' =>
          obtain ⟨m, hm, h1, h2⟩ := ih (index + 1) 0 p' (by omega) (by simpa using h)
          exact ⟨m, by rw [hscan]; exact hm, by omega, by omega⟩
      | some r0 =>
        have hscan : scanMatches re (c :: cs) index 0
            = ⟨index, (c :: cs).take r0.pos, (List.range re.nGroups).map fun g =>
                (r0.closed.lookup (g + 1)).map fun se =>
                  ((c :: cs).drop se.1).take (se.2 - se.1)⟩
              :: scanMatches re cs (index + 1) (((c :: cs).take r0.pos).length - 1) := by
          simp [scanMatches, matchAt, hm0]
        by_cases hcov : p < ((c :: cs).take r0.pos).length
        · refine ⟨_, by rw [hscan]; exact List.mem_cons_self _ _, by simp, ?_⟩
          simp only
          omega
        · cases p with
          | zero =>
            obtain ⟨r, hr, hpos, _⟩ := h
            simp only [List.drop_zero] at hr
            rw [hm0] at hr
            simp only [Option.some.injEq] at hr
            subst hr
            exfalso
            apply hcov
            simp only [List.length_take, List.length_cons]
            omega
          | succ p' =>
            obtain ⟨m, hm, h1, h2⟩ := ih (index + 1) (((c :: cs).take r0.pos).length - 1) p'
              (by omega) (by simpa using h)
            exact ⟨m, by rw [hscan]; exact List.mem_cons_of_mem _ hm, by omega, by omega⟩

/-! ## The replacement -/

theorem getSubstitution_no_dollar (matched str : Str) (position : Nat)
    (captures : List (Option Str)) (t : Str) (h : '$' ∉ t) :
    getSubstitution matched str position captures 0 t = t := by
  induction t with
  | nil => rfl
  | cons c cs ih =>
    have hc : c ≠ '$' := fun e => h (by simp [e])
    have hcs : '$' ∉ cs := fun e => h (by simp [e])
    simp [getSubstitution, hc, ih hcs]

theorem replaceGlobal_of_no_match (re : RegExp) (s t : Str)
    (h : scanMatches re s 0 0 = []) : replaceGlobal re s t = s := by
  simp [replaceGlobal, h, buildResult]

theorem replaceGlobal_contains (re : RegExp) (s t : Str) (ht : '$' ∉ t)
    (h : scanMatches re s 0 0 ≠ []) : t <:+: replaceGlobal re s t := by
  cases hs : scanMatches re s 0 0 with
  | nil => exact absurd hs h
  | cons m ms =>
    simp only [replaceGlobal, hs, buildResult, Nat.zero_le, if_true,
      getSubstitution_no_dollar _ _ _ _ t ht]
    exact infix_middle _ _ _

theorem replaceGlobal_keeps (re : RegExp) (s t : Str) (ht : '$' ∉ t) (h : t <:+: s) :
    t <:+: replaceGlobal re s t := by
  cases hs : scanMatches re s 0 0 with
  | nil => rw [replaceGlobal_of_no_match re s t hs]; exact h
  | cons m ms => exact replaceGlobal_contains re s t ht (by rw [hs]; simp)

theorem runPasses_keeps (t : Str) (ht : '$' ∉ t) : ∀ (patterns : List Str) (md : Str),
    t <:+: md → t <:+: runPasses t patterns md := by
  intro patterns
  induction patterns with
  | nil => intro md h; exact h
  | cons p ps ih =>
    intro md h
    simp only [runPasses]
    cases parseRegExp p with
    | none => exact h
    | some re => exact ih _ (replaceGlobal_keeps re md t ht h)

theorem replacementFor_no_dollar (alt l : Str) (ha : '$' ∉ alt) (hl : '$' ∉ l) :
    '$' ∉ replacementFor alt l := by
  simp only [replacementFor, List.mem_append, not_or]
  exact ⟨⟨⟨⟨by decide, ha⟩, by decide⟩, hl⟩, by decide⟩

/-! ## The rewriting of image references -/

set_option maxRecDepth 100000

/-- C8 fails on the code: the alternative text of the candidate goes into the replacement
template of `replace`, where `$1` stands for the first capture, which is the alternative text
the reference had, and `$&` for the whole match.  A candidate whose alternative text is `$1`
keeps the old alternative text, and one whose alternative text is `$&` nests the old reference
inside the new one at every pass. -/
theorem dollar_alt_is_expanded :
    rewriteImages [downloadedPicture "https://cdn.example.com/a/img.png".toList "$1".toList]
        "![old text](https://cdn.example.com/a/img.png)".toList
      = "![old text](./images/image_1_1.png)".toList ∧
    rewriteImages [downloadedPicture "https://cdn.example.com/a/img.png".toList "$&".toList]
        "![old text](https://cdn.example.com/a/img.png)".toList
      = ("![![![![old text](https://cdn.example.com/a/img.png)](./images/image_1_1.png)]"
          ++ "(./images/image_1_1.png)](./images/image_1_1.png)").toList := by
  decide

/-- C2 fails on the code: for the URL of the specification's example, a body that is the
reference `![x](U)` and a single candidate with `originalSrc = U`, a `localPath` and the
alternative text `$&`, pass 1 does match, but the `$&` of the template stands for the matched
text: the result holds no `![$&](./images/image_1_1.png)` and still holds the reference
`![x](U)` to the remote URL.  With the alternative text `diagram` the same reference is
rewritten as the claim says. -/
theorem dollar_alt_breaks_pass1 :
    rewriteImages
        [downloadedPicture "https://cdn.example.com/a/img.png?v=2".toList "$&".toList]
        "![x](https://cdn.example.com/a/img.png?v=2)".toList
      = ("![![![![x](https://cdn.example.com/a/img.png?v=2)](./images/image_1_1.png)]"
          ++ "(./images/image_1_1.png)](./images/image_1_1.png)").toList ∧
    ¬ (replacementFor "$&".toList "./images/image_1_1.png".toList <:+:
        rewriteImages
          [downloadedPicture "https://cdn.example.com/a/img.png?v=2".toList "$&".toList]
          "![x](https://cdn.example.com/a/img.png?v=2)".toList) ∧
    "![x](https://cdn.example.com/a/img.png?v=2)".toList <:+:
        rewriteImages
          [downloadedPicture "https://cdn.example.com/a/img.png?v=2".toList "$&".toList]
          "![x](https://cdn.example.com/a/img.png?v=2)".toList ∧
    rewriteImages
        [downloadedPicture "https://cdn.example.com/a/img.png?v=2".toList "diagram".toList]
        "![x](https://cdn.example.com/a/img.png?v=2)".toList
      = "![diagram](./images/image_1_1.png)".toList := by
  decide

/-- The escaping of pass 1: let the URL `u` be any string that is not empty, the alternative
text `x` hold no line terminator, and the candidate have `originalSrc = u`, a `localPath` and an
alternative text without `$`.  Then the pattern of pass 1 is accepted and reads `u` as a literal, whatever
characters it holds; in every body that holds `![x](u)`, one of the matches of pass 1 covers
the opening `!` of that reference; and the output of pass 1, and the result of all passes,
hold `![candidateAlt](localPath)`. -/
theorem pass1_replaces_reference (image : Image) (u x l pre post : Str)
    (hsrc : image.originalSrc = u) (hloc : image.localPath = some l)
    (hu : u ≠ []) (hl : l ≠ []) (hx : ∀ c ∈ x, isLineTerminator c = false)
    (halt : '$' ∉ image.alt) (hld : '$' ∉ l) :
    ∃ re, parseRegExp (pattern1 u) = some re ∧
      re.nodes = referenceHead ++ literalNodes u ++ [.atom (.chr ')')] ∧
      (∃ m ∈ scanMatches re
            (pre ++ ("![".toList ++ x ++ "](".toList ++ u ++ ")".toList ++ post)) 0 0,
          m.index ≤ pre.length ∧ pre.length < m.index + m.matched.length) ∧
      replacementFor image.alt l <:+:
        replaceGlobal re (pre ++ ("![".toList ++ x ++ "](".toList ++ u ++ ")".toList ++ post))
          (replacementFor image.alt l) ∧
      replacementFor image.alt l <:+:
        rewriteImages [image]
          (pre ++ ("![".toList ++ x ++ "](".toList ++ u ++ ")".toList ++ post)) := by
  have hd := replacementFor_no_dollar image.alt l halt hld
  obtain ⟨r, hr, hpos⟩ := pattern1_matches_reference u x post hx
  have hcov := scanMatches_covers ⟨referenceHead ++ literalNodes u ++ [.atom (.chr ')')], 1⟩
    (pre ++ ("![".toList ++ x ++ "](".toList ++ u ++ ")".toList ++ post)) 0 0 pre.length
    (Nat.zero_le _) ⟨r, by simpa using hr, hpos, by simp⟩
  obtain ⟨m, hm, h1, h2⟩ := hcov
  have hne : scanMatches ⟨referenceHead ++ literalNodes u ++ [.atom (.chr ')')], 1⟩
      (pre ++ ("![".toList ++ x ++ "](".toList ++ u ++ ")".toList ++ post)) 0 0 ≠ [] :=
    List.ne_nil_of_mem hm
  have hpass1 := replaceGlobal_contains _ _ _ hd hne
  refine ⟨_, parse_pattern1 u, rfl, ⟨m, hm, by omega, by omega⟩, hpass1, ?_⟩
  have htr : truthy (some l) = true := by
    cases l with
    | nil => exact absurd rfl hl
    | cons a t => simp [truthy]
  have hsplit : patternsOf image = pattern1 u :: (patternsOf image).tail := by
    cases u with
    | nil => exact absurd rfl hu
    | cons a t => simp [patternsOf, hsrc]
  simp only [rewriteImages, List.foldl_cons, List.foldl_nil, rewriteImage, hloc, htr, if_true,
    Option.getD_some]
  rw [hsplit]
  simp only [runPasses, parse_pattern1]
  exact runPasses_keeps _ hd _ _ hpass1

/-- The escaping of pass 1 at the URL of the specification's example, which holds `.`, `/` and
`?`. -/
theorem pass1_replaces_reference_witness :
    replacementFor "diagram".toList "./images/image_1_1.png".toList <:+:
      rewriteImages
        [downloadedPicture "https://cdn.example.com/a/img.png?v=2".toList "diagram".toList]
        ("See ".toList ++ ("![".toList ++ "x".toList ++ "](".toList
          ++ "https://cdn.example.com/a/img.png?v=2".toList ++ ")".toList ++ " below".toList)) :=
  (pass1_replaces_reference
    (downloadedPicture "https://cdn.example.com/a/img.png?v=2".toList "diagram".toList)
    "https://cdn.example.com/a/img.png?v=2".toList "x".toList "./images/image_1_1.png".toList
    "See ".toList " below".toList rfl rfl (by decide) (by decide) (by decide) (by decide)
    (by decide)).elim fun _ h => h.2.2.2.2

/-- C3 fails on the code: on a page whose first two images are `https://h/2.png` and
`https://h/b.png`, the reference to the second is rewritten to `./images/image_1_2.png`.  Pass 4
asks whether the URL of a reference contains the file name of the candidate, not whether its
file name is that name; the local path contains the file name `2.png` of the first image, so
a second run with the same candidates rewrites the reference again, to the other image, and
does not return the output of the first run. -/
theorem rewriteImages_second_run_differs :
    rewriteImages twoPictures "![x](https://h/b.png)".toList
      = "![two](./images/image_1_2.png)".toList ∧
    rewriteImages twoPictures (rewriteImages twoPictures "![x](https://h/b.png)".toList)
      = "![one](./images/image_1_1.png)".toList ∧
    rewriteImages twoPictures (rewriteImages twoPictures "![x](https://h/b.png)".toList)
      ≠ rewriteImages twoPictures "![x](https://h/b.png)".toList := by
  decide

end GitbookMd
